import Mathlib

/-!
Verification development for the PAdES incremental PDF writer and orchestrator
(`src/pdf_parser.js`, `src/pades_manager.js`).  PDF buffers are modelled as
`List Nat`, one element per latin1 byte.  Pure string manipulation from the
source is translated into executable Lean functions; regex driven loops become
fuelled recursions with the fuel chosen large enough to cover the whole buffer.
-/

namespace PAdES

/-- Byte-code view of a string literal (latin1 code points). -/
def str (s : String) : List Nat := s.toList.map (fun c => c.toNat)

/-- ASCII decimal digit test, mirroring the regex class `\d`. -/
def isDigitB (c : Nat) : Bool := 48 ≤ c && c ≤ 57

/-- Whitespace test mirroring `_skipWs` in `pdf_parser.js` (space, tab, CR, LF),
which is also what `\s` matches on the byte strings the source handles. -/
def isWsB (c : Nat) : Bool := c == 32 || c == 9 || c == 13 || c == 10

/-- ASCII letter test, mirroring the regex class `[A-Za-z]`. -/
def isAlphaB (c : Nat) : Bool := (65 ≤ c && c ≤ 90) || (97 ≤ c && c ≤ 122)

/-- Word-character test for the regex word boundary `\b`. -/
def isWordB (c : Nat) : Bool := isDigitB c || isAlphaB c || c == 95

/-- Fuelled decimal digit emitter: most significant digit first, empty for 0.
Mirrors JavaScript `String(n)` for positive `n` once wrapped by `decStr`. -/
def decDigitsF : Nat → Nat → List Nat
  | 0, _ => []
  | _ + 1, 0 => []
  | f + 1, n => decDigitsF f (n / 10) ++ [48 + n % 10]

/-- Decimal rendering of a natural number, mirroring JavaScript `String(n)`. -/
def decStr (n : Nat) : List Nat := if n == 0 then [48] else decDigitsF n n

/-- `String(n).padStart(10, '0')` from `PDFPAdESWriter._p10`. -/
def p10 (n : Nat) : List Nat := List.replicate (10 - (decStr n).length) 48 ++ decStr n

/-- Numeric value of a list of ASCII digits, as `parseInt` computes it on a
digit-only string (most significant digit first). -/
def digitsVal (ds : List Nat) : Nat := ds.foldl (fun a d => a * 10 + (d - 48)) 0

/-- Longest whitespace run at the head of the list together with the rest. -/
def spanWs : List Nat → List Nat × List Nat
  | [] => ([], [])
  | c :: cs =>
    if isWsB c then
      let (r, t) := spanWs cs
      (c :: r, t)
    else ([], c :: cs)

/-- Longest digit run at the head of the list together with the rest. -/
def spanDigits : List Nat → List Nat × List Nat
  | [] => ([], [])
  | c :: cs =>
    if isDigitB c then
      let (r, t) := spanDigits cs
      (c :: r, t)
    else ([], c :: cs)

/-- In-place replacement of `repl.length` bytes at `pos`, the `Buffer.concat`
splice pattern used by `_patchByteRange` and `injectCMS`. -/
def splice (buf : List Nat) (pos : Nat) (repl : List Nat) : List Nat :=
  buf.take pos ++ repl ++ buf.drop (pos + repl.length)

/-! ### Basic lemmas about the byte-level helpers -/

theorem decDigitsF_all_digits : ∀ f n, (decDigitsF f n).all isDigitB = true := by
  intro f
  induction f with
  | zero => intro n; rfl
  | succ f ih =>
    intro n
    cases n with
    | zero => rfl
    | succ m =>
      simp only [decDigitsF, List.all_append, Bool.and_eq_true]
      refine ⟨ih _, ?_⟩
      simp only [List.all_cons, List.all_nil, Bool.and_true]
      simp only [isDigitB, Bool.and_eq_true, decide_eq_true_eq]
      omega

theorem decStr_all_digits (n : Nat) : (decStr n).all isDigitB = true := by
  unfold decStr
  split
  · rfl
  · exact decDigitsF_all_digits n n

theorem decStr_ne_nil (n : Nat) : decStr n ≠ [] := by
  unfold decStr
  split
  · simp
  · rename_i h
    simp only [beq_iff_eq] at h
    cases n with
    | zero => omega
    | succ m =>
      simp only [decDigitsF]
      intro hc
      exact absurd hc (by simp)

theorem p10_all_digits (n : Nat) : (p10 n).all isDigitB = true := by
  unfold p10
  rw [List.all_append, Bool.and_eq_true]
  refine ⟨?_, decStr_all_digits n⟩
  rw [List.all_eq_true]
  intro x hx
  rw [List.eq_of_mem_replicate hx]
  rfl

/-- Digit-length bound: `decDigitsF` emits at most `k` digits iff `n < 10^k`,
for sufficient fuel. -/
theorem decDigitsF_length_le_iff :
    ∀ k f n, n ≤ f → ((decDigitsF f n).length ≤ k ↔ n < 10 ^ k) := by
  intro k
  induction k with
  | zero =>
    intro f n hf
    cases f with
    | zero =>
      interval_cases n
      simp [decDigitsF]
    | succ f' =>
      cases n with
      | zero => simp [decDigitsF]
      | succ m =>
        simp only [decDigitsF, List.length_append, List.length_cons,
          List.length_nil, pow_zero]
        omega
  | succ k ih =>
    intro f n hf
    cases f with
    | zero =>
      interval_cases n
      simp [decDigitsF]
    | succ f' =>
      cases n with
      | zero =>
        simp [decDigitsF]
      | succ m =>
        simp only [decDigitsF, List.length_append, List.length_cons, List.length_nil]
        have hrec : (m + 1) / 10 ≤ f' := by
          have := Nat.div_le_self (m + 1) 10
          have h2 : (m + 1) / 10 < m + 1 := Nat.div_lt_self (by omega) (by omega)
          omega
        have := ih f' ((m + 1) / 10) hrec
        rw [pow_succ]
        constructor
        · intro h
          have hlt : (m + 1) / 10 < 10 ^ k := this.mp (by omega)
          have := (Nat.div_lt_iff_lt_mul (by omega : 0 < 10)).mp hlt
          omega
        · intro h
          have hlt : (m + 1) / 10 < 10 ^ k :=
            (Nat.div_lt_iff_lt_mul (by omega : 0 < 10)).mpr (by omega)
          have := this.mpr hlt
          omega

theorem decStr_length_le_iff (k n : Nat) (hk : 1 ≤ k) :
    ((decStr n).length ≤ k ↔ n < 10 ^ k) := by
  unfold decStr
  split
  · rename_i h
    simp only [beq_iff_eq] at h
    subst h
    simp only [List.length_cons, List.length_nil]
    constructor
    · intro _; positivity
    · intro _; omega
  · exact decDigitsF_length_le_iff k n n le_rfl

/-- `p10 n` has exactly 10 characters whenever `n < 10^10`, matching
`String(n).padStart(10, '0')`. -/
theorem p10_length (n : Nat) (h : n < 10 ^ 10) : (p10 n).length = 10 := by
  unfold p10
  have hle : (decStr n).length ≤ 10 := (decStr_length_le_iff 10 n (by omega)).mpr h
  simp only [List.length_append, List.length_replicate]
  omega

/-! ### Splice lemmas: the fixed-width in-place overwrite -/

theorem splice_length (buf repl : List Nat) (pos : Nat)
    (h : pos + repl.length ≤ buf.length) :
    (splice buf pos repl).length = buf.length := by
  unfold splice
  simp only [List.length_append, List.length_take, List.length_drop]
  omega

theorem splice_getElem?_left (buf repl : List Nat) (pos i : Nat) (hi : i < pos)
    (h : pos + repl.length ≤ buf.length) :
    (splice buf pos repl)[i]? = buf[i]? := by
  unfold splice
  rw [List.append_assoc]
  rw [List.getElem?_append_left (by rw [List.length_take]; omega)]
  exact List.getElem?_take_of_lt hi

theorem splice_getElem?_right (buf repl : List Nat) (pos i : Nat)
    (hi : pos + repl.length ≤ i) (h : pos + repl.length ≤ buf.length) :
    (splice buf pos repl)[i]? = buf[i]? := by
  unfold splice
  rw [List.append_assoc]
  have htl : (buf.take pos).length = pos := by
    rw [List.length_take]
    omega
  rw [List.getElem?_append_right (show (buf.take pos).length ≤ i by rw [htl]; omega)]
  rw [htl]
  rw [List.getElem?_append_right (by omega : repl.length ≤ i - pos)]
  rw [List.getElem?_drop]
  congr 1
  omega

theorem splice_region (buf repl : List Nat) (pos : Nat)
    (h : pos + repl.length ≤ buf.length) :
    ((splice buf pos repl).drop pos).take repl.length = repl := by
  unfold splice
  rw [List.append_assoc]
  have htl : (buf.take pos).length = pos := by
    rw [List.length_take]
    omega
  rw [List.drop_append_of_le_length (le_of_eq htl.symm)]
  rw [List.drop_eq_nil_of_le (le_of_eq htl)]
  rw [List.nil_append]
  exact List.take_left' rfl

/-! ## PDFPAdESWriter state and CMS injection (`pdf_parser.js` 953–1285)

The writer keeps the draft PDF bytes in `this.pdf` and the placeholder
bookkeeping in `this._ph`.  `injectCMS` throws (modelled as `none`) before any
mutation when `_ph` is absent or the hex does not fit; on success it replaces
`this.pdf` and — notably — leaves `this._ph` untouched. -/

/-- The `_ph` record stored by `preparePlaceholder` /
`prepareDocumentTimeStampPlaceholder` (`pdf_parser.js` 1087–1096, 1187–1196). -/
structure Placeholder where
  sigObjNum : Nat
  contentsStart : Nat
  contentsEnd : Nat
  lessThanPos : Nat
  greaterThanPos : Nat
  afterStart : Nat
  placeholderHexLen : Nat
deriving DecidableEq

/-- Writer state: the PDF byte buffer plus the optional placeholder record. -/
structure WriterState where
  pdf : List Nat
  ph : Option Placeholder
deriving DecidableEq

/-- Uppercase hex digit of a nibble, as in `toString('hex').toUpperCase()`. -/
def hexDigitU (n : Nat) : Nat := if n < 10 then 48 + n else 55 + n

/-- Uppercase hex encoding of a byte buffer (two digits per byte). -/
def hexUpper : List Nat → List Nat
  | [] => []
  | b :: bs => hexDigitU (b / 16) :: hexDigitU (b % 16) :: hexUpper bs

theorem hexUpper_length (bs : List Nat) : (hexUpper bs).length = 2 * bs.length := by
  induction bs with
  | nil => rfl
  | cons b bs ih =>
    simp only [hexUpper, List.length_cons, ih]
    omega

/-- `PDFPAdESWriter.injectCMS` (`pdf_parser.js` 1219–1229): fails when no
placeholder is pending or when the uppercase hex is longer than the capacity
`contentsEnd - contentsStart + 1`; otherwise splices
`before ++ (hex right-padded with '0') ++ after`.  The `_ph` field is not
cleared by the source, so it is carried over unchanged. -/
def injectCMS (st : WriterState) (cmsDer : List Nat) : Option WriterState :=
  match st.ph with
  | none => none
  | some ph =>
    let dataHex := hexUpper cmsDer
    let capacity := ph.contentsEnd - ph.contentsStart + 1
    if capacity < dataHex.length then none
    else
      let padded := dataHex ++ List.replicate (capacity - dataHex.length) 48
      let before := st.pdf.take ph.contentsStart
      let after := st.pdf.drop (ph.contentsEnd + 1)
      some { pdf := before ++ padded ++ after, ph := some ph }

/-- Observable writer after calling `injectCMS`: a thrown error leaves
`this.pdf` untouched, a successful call installs the new buffer. -/
def injectCMSRun (st : WriterState) (cmsDer : List Nat) : WriterState :=
  (injectCMS st cmsDer).getD st

/-- `PDFPAdESWriter.computeByteRangeHash` (`pdf_parser.js` 1206–1217):
streams `pdf.slice(0, b)` and `pdf.slice(c, c + d)` into the hash, with
`b = _ph.lessThanPos`, `c = _ph.afterStart`, `d = pdf.length - _ph.afterStart`.
The hash primitive itself (`crypto.createHash`) is abstracted as a function
from the streamed bytes to the digest. -/
def computeByteRangeHash (hash : List Nat → List Nat) (st : WriterState) :
    Option (List Nat) :=
  match st.ph with
  | none => none
  | some ph =>
    let b := ph.lessThanPos
    let c := ph.afterStart
    let d := st.pdf.length - ph.afterStart
    some (hash ((st.pdf.drop 0).take b ++ (st.pdf.drop c).take d))

/-! ## preparePlaceholder (`pdf_parser.js` 971–1104)

The method appends `size 0 obj\n<sig dict>\nendobj\n` directly after the
current buffer, then the updated field object, optional Perms/AcroForm
objects, the xref section and the trailer (modelled together as `rest`), and
finally patches the 40-zero `/ByteRange` region in place.
`_locateNewSigSpans` (1246–1277) finds the first regex match of
`sigObjNum 0 obj << … >> endobj`; since `sigObjNum = this.size` is the first
unused object number of a well-formed input, that match is the newly appended
object at offset `base.length`, and the `<`, `>` and ByteRange offsets are the
positions inside the appended signature dictionary computed below. -/

/-- Signature dictionary prefix up to and including the `[` that opens
`/ByteRange` (`pdf_parser.js` 1021–1022). -/
def sigPre (subFilter pPart : List Nat) : List Nat :=
  str "<< /Type /Sig /Filter /Adobe.PPKLite /SubFilter /" ++
    (subFilter ++ (pPart ++ str " /ByteRange ["))

/-- The 40-zero ByteRange placeholder `BR` (`pdf_parser.js` 1018). -/
def brZeros : List Nat := str "0000000000 0000000000 0000000000 0000000000"

/-- Between the ByteRange numbers and the `/Contents` opening `<`. -/
def sigMid : List Nat := str "] /Contents <"

/-- From the `>` closing `/Contents` to the end of the dictionary. -/
def sigTail (dateStr : List Nat) : List Nat :=
  str "> /M (" ++ (dateStr ++ str ") >>")

/-- The full signature dictionary with `H` placeholder zeros. -/
def sigDictStr (sf pp ds : List Nat) (H : Nat) : List Nat :=
  sigPre sf pp ++ (brZeros ++ (sigMid ++ (List.replicate H 48 ++ sigTail ds)))

/-- `objNum + ' 0 obj\n'` object header. -/
def objHeader (n : Nat) : List Nat := decStr n ++ str " 0 obj\n"

/-- `'\nendobj\n'` object footer. -/
def objFooter : List Nat := str "\nendobj\n"

/-- One serialized indirect object, as `pushObj` / `_appendXrefTrailer`
emit it. -/
def objChunk (n : Nat) (content : List Nat) : List Nat :=
  objHeader n ++ (content ++ objFooter)

/-- The draft buffer built by `preparePlaceholder` before the ByteRange
patch: base, then the signature object, then the remaining appended update
(field object, optional extra objects, xref, trailer), modelled as `rest`. -/
def draftOf (base : List Nat) (size : Nat) (sf pp ds : List Nat) (H : Nat)
    (rest : List Nat) : List Nat :=
  base ++ (objChunk size (sigDictStr sf pp ds H) ++ rest)

/-- Absolute offset of the first ByteRange digit inside the draft. -/
def brNumsStartOf (base : List Nat) (size : Nat) (sf pp : List Nat) : Nat :=
  base.length + ((objHeader size).length + (sigPre sf pp).length)

/-- Absolute offset of the `<` that opens the `/Contents` hex string. -/
def lessThanPosOf (base : List Nat) (size : Nat) (sf pp : List Nat) : Nat :=
  brNumsStartOf base size sf pp + 55

/-- The replacement ByteRange text
`p10(a) sp p10(b) sp p10(c) sp p10(d)` with `a = 0`. -/
def brTextOf (b c d : Nat) : List Nat :=
  p10 0 ++ ([32] ++ (p10 b ++ ([32] ++ (p10 c ++ ([32] ++ p10 d)))))

/-- Consume exactly `k` ASCII digits (regex `\d{k}` with no backtracking). -/
def takeExactDigits : Nat → List Nat → Option (List Nat)
  | 0, t => some t
  | _ + 1, [] => none
  | k + 1, c :: cs => if isDigitB c then takeExactDigits k cs else none

/-- Consume a non-empty whitespace run (regex `\s+`). -/
def wsRun1 (t : List Nat) : Option (List Nat) :=
  match spanWs t with
  | ([], _) => none
  | (_ :: _, rest) => some rest

/-- The `_patchByteRange` guard `^\d{10}\s+\d{10}\s+\d{10}\s+\d{10}$`
(`pdf_parser.js` 1280). -/
def brTextOk (t : List Nat) : Bool :=
  (Option.bind (takeExactDigits 10 t) (fun t1 =>
   Option.bind (wsRun1 t1) (fun t2 =>
   Option.bind (takeExactDigits 10 t2) (fun t3 =>
   Option.bind (wsRun1 t3) (fun t4 =>
   Option.bind (takeExactDigits 10 t4) (fun t5 =>
   Option.bind (wsRun1 t5) (fun t6 =>
   Option.bind (takeExactDigits 10 t6) (fun t7 =>
   if t7.isEmpty then some () else none)))))))).isSome

/-- `_patchByteRange` (`pdf_parser.js` 1279–1284): throws unless the text is
four ten-digit runs separated by whitespace, then splices it in place. -/
def patchByteRange (buf : List Nat) (pos : Nat) (text : List Nat) :
    Option (List Nat) :=
  if brTextOk text then some (splice buf pos text) else none

/-- Odd placeholder lengths are rounded up (`pdf_parser.js` 978–980). -/
def normHexLen (H0 : Nat) : Nat := if H0 % 2 == 1 then H0 + 1 else H0

/-- `PDFPAdESWriter.preparePlaceholder` (`pdf_parser.js` 971–1104), from the
point where the appended update is laid out: builds the draft, computes
`b = lessThanPos`, `c = greaterThanPos + 1`, `d = draft.length - c`, patches
the 40-digit region in place and stores the `_ph` record.  Returns the new
writer state and the `byteRange` quadruple `[0, b, c, d]` of the result
object. -/
def preparePlaceholder (base : List Nat) (size : Nat) (sf pp ds : List Nat)
    (H0 : Nat) (rest : List Nat) :
    Option (WriterState × Nat × Nat × Nat × Nat) :=
  if H0 < 2 then none else
  match patchByteRange (draftOf base size sf pp ds (normHexLen H0) rest)
      (brNumsStartOf base size sf pp)
      (brTextOf (lessThanPosOf base size sf pp)
        (lessThanPosOf base size sf pp + normHexLen H0 + 2)
        ((draftOf base size sf pp ds (normHexLen H0) rest).length -
          (lessThanPosOf base size sf pp + normHexLen H0 + 2))) with
  | none => none
  | some patched =>
    some ({ pdf := patched,
            ph := some ⟨size,
                        lessThanPosOf base size sf pp + 1,
                        lessThanPosOf base size sf pp + normHexLen H0,
                        lessThanPosOf base size sf pp,
                        lessThanPosOf base size sf pp + normHexLen H0 + 1,
                        lessThanPosOf base size sf pp + normHexLen H0 + 2,
                        normHexLen H0⟩ },
          0, lessThanPosOf base size sf pp,
          lessThanPosOf base size sf pp + normHexLen H0 + 2,
          (draftOf base size sf pp ds (normHexLen H0) rest).length -
            (lessThanPosOf base size sf pp + normHexLen H0 + 2))

/-! ### Length bookkeeping for the draft -/

theorem brZeros_length : brZeros.length = 43 := by decide

theorem sigMid_length : sigMid.length = 13 := by decide

theorem objFooter_length : objFooter.length = 8 := by decide

theorem objHeader_length (n : Nat) :
    (objHeader n).length = (decStr n).length + 7 := by
  simp [objHeader, str]

theorem sigTail_length (ds : List Nat) :
    (sigTail ds).length = ds.length + 10 := by
  simp [sigTail, str]

theorem sigDictStr_length (sf pp ds : List Nat) (H : Nat) :
    (sigDictStr sf pp ds H).length =
      (sigPre sf pp).length + 56 + H + (sigTail ds).length := by
  simp only [sigDictStr, List.length_append, List.length_replicate,
    brZeros_length, sigMid_length]
  omega

theorem draftOf_length (base : List Nat) (size : Nat) (sf pp ds : List Nat)
    (H : Nat) (rest : List Nat) :
    (draftOf base size sf pp ds H rest).length =
      base.length + (objHeader size).length + (sigDictStr sf pp ds H).length +
        8 + rest.length := by
  simp only [draftOf, objChunk, List.length_append, objFooter_length]
  omega

/-! ### Format of the ByteRange replacement text -/

theorem p10_ne_nil (n : Nat) : p10 n ≠ [] := by
  unfold p10
  intro h
  have := congrArg List.length h
  rw [List.length_append] at this
  have := decStr_ne_nil n
  cases hd : decStr n with
  | nil => exact this hd
  | cons a as =>
    rw [hd] at h
    exact absurd (List.append_eq_nil.mp h).2 (by simp)

theorem isWsB_eq_false_of_digit (c : Nat) (h : isDigitB c = true) :
    isWsB c = false := by
  simp only [isDigitB, Bool.and_eq_true, decide_eq_true_eq] at h
  simp only [isWsB, Bool.or_eq_false_iff, beq_eq_false_iff_ne, ne_eq]
  omega

theorem spanWs_cons_not_ws (x : Nat) (t : List Nat) (h : isWsB x = false) :
    spanWs (x :: t) = ([], x :: t) := by
  simp [spanWs, h]

theorem p10_head_not_ws (x : Nat) :
    ∃ y ys, p10 x = y :: ys ∧ isWsB y = false := by
  cases hp : p10 x with
  | nil => exact absurd hp (p10_ne_nil x)
  | cons y ys =>
    have hall := p10_all_digits x
    rw [hp, List.all_cons, Bool.and_eq_true] at hall
    exact ⟨y, ys, rfl, isWsB_eq_false_of_digit y hall.1⟩

theorem spanWs_p10_append (x : Nat) (r : List Nat) :
    spanWs (p10 x ++ r) = ([], p10 x ++ r) := by
  obtain ⟨y, ys, hp, hy⟩ := p10_head_not_ws x
  rw [hp, List.cons_append, spanWs_cons_not_ws y _ hy]

theorem spanWs_p10 (x : Nat) : spanWs (p10 x) = ([], p10 x) := by
  obtain ⟨y, ys, hp, hy⟩ := p10_head_not_ws x
  rw [hp, spanWs_cons_not_ws y _ hy]

theorem wsRun1_space_of (X : List Nat) (hX : spanWs X = ([], X)) :
    wsRun1 (32 :: X) = some X := by
  unfold wsRun1
  rw [show spanWs (32 :: X) = ([32], X) from by simp [spanWs, isWsB, hX]]

theorem wsRun1_digit (y : Nat) (t : List Nat) (hy : isDigitB y = true) :
    wsRun1 (y :: t) = none := by
  unfold wsRun1
  rw [spanWs_cons_not_ws y t (isWsB_eq_false_of_digit y hy)]

theorem takeExactDigits_of_all (k : Nat) (l : List Nat) (hk : k ≤ l.length)
    (hall : l.all isDigitB = true) :
    takeExactDigits k l = some (l.drop k) := by
  induction k generalizing l with
  | zero => simp [takeExactDigits]
  | succ k ih =>
    cases l with
    | nil => simp at hk
    | cons x xs =>
      rw [List.all_cons, Bool.and_eq_true] at hall
      simp only [takeExactDigits, hall.1, if_true, List.drop_succ_cons]
      exact ih xs (by simpa using hk) hall.2

theorem takeExactDigits_append (k : Nat) (l r : List Nat) (hk : k ≤ l.length)
    (hall : l.all isDigitB = true) :
    takeExactDigits k (l ++ r) = some (l.drop k ++ r) := by
  induction k generalizing l with
  | zero => simp [takeExactDigits]
  | succ k ih =>
    cases l with
    | nil => simp at hk
    | cons x xs =>
      rw [List.all_cons, Bool.and_eq_true] at hall
      simp only [List.cons_append, takeExactDigits, hall.1, if_true,
        List.drop_succ_cons]
      exact ih xs (by simpa using hk) hall.2

theorem p10_length_ge (n : Nat) : 10 ≤ (p10 n).length := by
  unfold p10
  rw [List.length_append, List.length_replicate]
  omega

theorem p10_length_eq_iff (n : Nat) : (p10 n).length = 10 ↔ n < 10 ^ 10 := by
  constructor
  · intro h
    unfold p10 at h
    rw [List.length_append, List.length_replicate] at h
    exact (decStr_length_le_iff 10 n (by omega)).mp (by omega)
  · exact p10_length n

theorem p10_drop_nil (n : Nat) (h : n < 10 ^ 10) : (p10 n).drop 10 = [] :=
  List.drop_eq_nil_of_le (le_of_eq ((p10_length_eq_iff n).mpr h))

theorem all_digits_drop (l : List Nat) (k : Nat) (h : l.all isDigitB = true) :
    (l.drop k).all isDigitB = true := by
  rw [List.all_eq_true] at h ⊢
  intro x hx
  exact h x (List.mem_of_mem_drop hx)

theorem p10_drop_cons (x : Nat) (hx : ¬ x < 10 ^ 10) :
    ∃ y ys, isDigitB y = true ∧ (p10 x).drop 10 = y :: ys := by
  have hge := p10_length_ge x
  have hne10 : (p10 x).length ≠ 10 := fun h => hx ((p10_length_eq_iff x).mp h)
  have hlen : 0 < ((p10 x).drop 10).length := by
    rw [List.length_drop]
    omega
  cases hd : (p10 x).drop 10 with
  | nil => rw [hd] at hlen; simp at hlen
  | cons y ys =>
    refine ⟨y, ys, ?_, rfl⟩
    have hall := all_digits_drop (p10 x) 10 (p10_all_digits x)
    rw [hd, List.all_cons, Bool.and_eq_true] at hall
    exact hall.1

/-- One `\d{10}\s+` group of the ByteRange regex, applied to a `p10` value:
it succeeds exactly when the value fits in ten digits. -/
theorem group_ws_step (x : Nat) (X : List Nat) (hX : spanWs X = ([], X))
    (f : List Nat → Option Unit) :
    Option.bind (takeExactDigits 10 (p10 x ++ (32 :: X)))
      (fun t => Option.bind (wsRun1 t) f) =
      if x < 10 ^ 10 then f X else none := by
  rw [takeExactDigits_append 10 (p10 x) _ (p10_length_ge x) (p10_all_digits x),
    Option.some_bind]
  by_cases hx : x < 10 ^ 10
  · rw [p10_drop_nil x hx, List.nil_append, wsRun1_space_of X hX,
      Option.some_bind, if_pos hx]
  · obtain ⟨y, ys, hy, hdrop⟩ := p10_drop_cons x hx
    rw [hdrop, List.cons_append, wsRun1_digit y _ hy, Option.none_bind,
      if_neg hx]

/-- The final `\d{10}$` group of the ByteRange regex on a `p10` value. -/
theorem group_last (x : Nat) :
    Option.bind (takeExactDigits 10 (p10 x))
      (fun t => if t.isEmpty then some () else none) =
      if x < 10 ^ 10 then some () else none := by
  rw [takeExactDigits_of_all 10 (p10 x) (p10_length_ge x) (p10_all_digits x),
    Option.some_bind]
  by_cases hx : x < 10 ^ 10
  · rw [p10_drop_nil x hx, if_pos hx]
    rfl
  · obtain ⟨y, ys, hy, hdrop⟩ := p10_drop_cons x hx
    rw [hdrop, if_neg hx]
    rfl

/-- The `_patchByteRange` guard accepts the text built by
`preparePlaceholder` exactly when all three variable ByteRange values fit in
ten decimal digits. -/
theorem brTextOk_brTextOf_iff (b c d : Nat) :
    brTextOk (brTextOf b c d) = true ↔
      b < 10 ^ 10 ∧ c < 10 ^ 10 ∧ d < 10 ^ 10 := by
  unfold brTextOk brTextOf
  simp only [List.singleton_append]
  rw [takeExactDigits_append 10 (p10 0) _ (p10_length_ge 0) (p10_all_digits 0),
    Option.some_bind]
  rw [show (p10 0).drop 10 = [] from by decide, List.nil_append]
  rw [wsRun1_space_of _ (spanWs_p10_append b _), Option.some_bind]
  rw [group_ws_step b _ (spanWs_p10_append c _)]
  by_cases hb : b < 10 ^ 10
  · rw [if_pos hb, group_ws_step c _ (spanWs_p10 d)]
    by_cases hc : c < 10 ^ 10
    · rw [if_pos hc, group_last d]
      by_cases hd : d < 10 ^ 10
      · rw [if_pos hd]
        exact iff_of_true rfl ⟨hb, hc, hd⟩
      · rw [if_neg hd]
        exact iff_of_false (by simp) (fun h => hd h.2.2)
    · rw [if_neg hc]
      exact iff_of_false (by simp) (fun h => hc h.2.1)
  · rw [if_neg hb]
    exact iff_of_false (by simp) (fun h => hb h.1)

/-- When the guard holds, the replacement text has exactly 43 bytes: four
ten-digit decimals and three single spaces. -/
theorem brTextOf_length (b c d : Nat) (hb : b < 10 ^ 10) (hc : c < 10 ^ 10)
    (hd : d < 10 ^ 10) : (brTextOf b c d).length = 43 := by
  unfold brTextOf
  simp only [List.length_append, List.length_cons, List.length_nil,
    p10_length b hb, p10_length c hc, p10_length d hd,
    show (p10 0).length = 10 from by decide]


/-! ### Byte positions inside the draft buffer -/

theorem getElem?_append_off (a b : List Nat) (k : Nat) :
    (a ++ b)[a.length + k]? = b[k]? := by
  rw [List.getElem?_append_right (Nat.le_add_right _ _)]
  congr 1
  omega

/-- The byte at `lessThanPosOf` in the draft is the `<` that opens the
`/Contents` hex string of the appended signature dictionary. -/
theorem draft_lt_byte (base : List Nat) (size : Nat) (sf pp ds : List Nat)
    (H : Nat) (rest : List Nat) :
    (draftOf base size sf pp ds H rest)[lessThanPosOf base size sf pp]? =
      some 60 := by
  unfold draftOf objChunk sigDictStr lessThanPosOf brNumsStartOf
  simp only [List.append_assoc]
  rw [show base.length + ((objHeader size).length + (sigPre sf pp).length) + 55 =
        base.length + ((objHeader size).length + ((sigPre sf pp).length + 55))
      from by omega]
  rw [getElem?_append_off, getElem?_append_off, getElem?_append_off]
  rw [show (55 : Nat) = brZeros.length + 12 from by rw [brZeros_length]]
  rw [getElem?_append_off]
  rw [List.getElem?_append_left (by rw [sigMid_length]; omega)]
  decide

/-- The byte just before `afterStart` in the draft is the `>` that closes the
`/Contents` hex string. -/
theorem draft_gt_byte (base : List Nat) (size : Nat) (sf pp ds : List Nat)
    (H : Nat) (rest : List Nat) :
    (draftOf base size sf pp ds H rest)[lessThanPosOf base size sf pp +
      H + 1]? = some 62 := by
  unfold draftOf objChunk sigDictStr lessThanPosOf brNumsStartOf
  simp only [List.append_assoc]
  rw [show base.length + ((objHeader size).length + (sigPre sf pp).length) +
        55 + H + 1 =
        base.length + ((objHeader size).length +
          ((sigPre sf pp).length + (56 + H)))
      from by omega]
  rw [getElem?_append_off, getElem?_append_off, getElem?_append_off]
  rw [show 56 + H = brZeros.length + (13 + H) from by rw [brZeros_length]; omega]
  rw [getElem?_append_off]
  rw [show 13 + H = sigMid.length + H from by rw [sigMid_length]]
  rw [getElem?_append_off]
  rw [List.getElem?_append_right
        (by rw [List.length_replicate] : (List.replicate H (48 : Nat)).length ≤ H)]
  simp only [List.length_replicate, Nat.sub_self]
  unfold sigTail
  simp only [List.append_assoc]
  rw [List.getElem?_append_left (by simp [str])]
  decide

/-- The 43 bytes starting at `brNumsStartOf` in the draft are exactly the
40-zero ByteRange placeholder with its three separating spaces. -/
theorem draft_region_brZeros (base : List Nat) (size : Nat)
    (sf pp ds : List Nat) (H : Nat) (rest : List Nat) :
    ((draftOf base size sf pp ds H rest).drop
        (brNumsStartOf base size sf pp)).take 43 = brZeros := by
  unfold draftOf objChunk sigDictStr brNumsStartOf
  simp only [List.append_assoc]
  rw [List.drop_append, List.drop_append, List.drop_left]
  rw [show (43 : Nat) = brZeros.length from brZeros_length.symm]
  exact List.take_left _ _

/-- The ByteRange digit region starts 55 bytes before the `<` and lies inside
the draft with at least 43 bytes of room. -/
theorem brS_le (base : List Nat) (size : Nat) (sf pp ds : List Nat)
    (H : Nat) (rest : List Nat) :
    brNumsStartOf base size sf pp + 43 ≤
      (draftOf base size sf pp ds H rest).length := by
  rw [draftOf_length, sigDictStr_length]
  unfold brNumsStartOf
  omega

/-- The `afterStart` offset lies within the draft. -/
theorem afterStart_le (base : List Nat) (size : Nat) (sf pp ds : List Nat)
    (H : Nat) (rest : List Nat) :
    lessThanPosOf base size sf pp + H + 2 ≤
      (draftOf base size sf pp ds H rest).length := by
  rw [draftOf_length, sigDictStr_length, sigTail_length]
  unfold lessThanPosOf brNumsStartOf
  omega

theorem patchByteRange_eq_some (buf : List Nat) (pos : Nat)
    (text out : List Nat) (h : patchByteRange buf pos text = some out) :
    brTextOk text = true ∧ out = splice buf pos text := by
  unfold patchByteRange at h
  by_cases hok : brTextOk text = true
  · rw [if_pos hok] at h
    exact ⟨hok, (Option.some.inj h).symm⟩
  · rw [if_neg hok] at h
    exact absurd h (by simp)

/-- Master destructuring lemma for a successful `preparePlaceholder`:
recovers the value of every component of the result and of the stored
placeholder record. -/
theorem prepare_eq_some (base : List Nat) (size : Nat) (sf pp ds : List Nat)
    (H0 : Nat) (rest : List Nat) (st : WriterState) (a b c d : Nat)
    (h : preparePlaceholder base size sf pp ds H0 rest = some (st, a, b, c, d)) :
    2 ≤ H0 ∧
    a = 0 ∧
    b = lessThanPosOf base size sf pp ∧
    c = b + normHexLen H0 + 2 ∧
    d = (draftOf base size sf pp ds (normHexLen H0) rest).length - c ∧
    brTextOk (brTextOf b c d) = true ∧
    st.pdf = splice (draftOf base size sf pp ds (normHexLen H0) rest)
      (brNumsStartOf base size sf pp) (brTextOf b c d) ∧
    st.ph = some ⟨size, b + 1, b + normHexLen H0, b, b + normHexLen H0 + 1,
      b + normHexLen H0 + 2, normHexLen H0⟩ := by
  by_cases hH0 : H0 < 2
  · rw [preparePlaceholder, if_pos hH0] at h
    exact absurd h (by simp)
  · rw [preparePlaceholder, if_neg hH0] at h
    cases hp : patchByteRange (draftOf base size sf pp ds (normHexLen H0) rest)
        (brNumsStartOf base size sf pp)
        (brTextOf (lessThanPosOf base size sf pp)
          (lessThanPosOf base size sf pp + normHexLen H0 + 2)
          ((draftOf base size sf pp ds (normHexLen H0) rest).length -
            (lessThanPosOf base size sf pp + normHexLen H0 + 2))) with
    | none =>
      rw [hp] at h
      exact absurd h (by simp)
    | some patched =>
      rw [hp] at h
      have hinj := Option.some.inj h
      simp only [Prod.mk.injEq] at hinj
      obtain ⟨hst, ha, hb, hc, hd⟩ := hinj
      obtain ⟨hok, hpatched⟩ := patchByteRange_eq_some _ _ _ _ hp
      subst hb hc hd
      refine ⟨by omega, ha.symm, rfl, rfl, rfl, hok, ?_, ?_⟩
      · rw [← hst, ← hpatched]
      · rw [← hst]

/-- C1: after a successful `preparePlaceholder` (or
`prepareDocumentTimeStampPlaceholder`, which lays out the same signature
object first in its appended update), the 40-zero `/ByteRange` region is
overwritten in place with exactly `p10 0 ␣ p10 b ␣ p10 c ␣ p10 d` — four
ten-digit zero-padded decimals separated by single spaces — where `a = 0`,
`b` is the absolute offset of the `<` opening `/Contents`, `c` is the offset
of the closing `>` plus one, and `d` is the total length minus `c`; the
overwrite keeps the buffer length and every byte outside the 43-byte digit
region unchanged. -/
theorem byteRange_patch_correct (base : List Nat) (size : Nat)
    (sf pp ds : List Nat) (H0 : Nat) (rest : List Nat) (st : WriterState)
    (a b c d : Nat)
    (h : preparePlaceholder base size sf pp ds H0 rest = some (st, a, b, c, d)) :
    a = 0 ∧
    (draftOf base size sf pp ds (normHexLen H0) rest)[b]? = some 60 ∧
    (draftOf base size sf pp ds (normHexLen H0) rest)[c - 1]? = some 62 ∧
    c = b + normHexLen H0 + 2 ∧
    d = (draftOf base size sf pp ds (normHexLen H0) rest).length - c ∧
    st.pdf.length = (draftOf base size sf pp ds (normHexLen H0) rest).length ∧
    ((draftOf base size sf pp ds (normHexLen H0) rest).drop
        (brNumsStartOf base size sf pp)).take 43 = brZeros ∧
    (st.pdf.drop (brNumsStartOf base size sf pp)).take 43 = brTextOf b c d ∧
    (brTextOf b c d).length = 43 ∧
    st.pdf[b]? = some 60 ∧ st.pdf[c - 1]? = some 62 ∧
    (∀ i, i < brNumsStartOf base size sf pp ∨
        brNumsStartOf base size sf pp + 43 ≤ i →
      st.pdf[i]? = (draftOf base size sf pp ds (normHexLen H0) rest)[i]?) := by
  obtain ⟨hH0, ha, hb, hc, hd, hok, hpdf, hph⟩ :=
    prepare_eq_some base size sf pp ds H0 rest st a b c d h
  obtain ⟨hblt, hclt, hdlt⟩ := (brTextOk_brTextOf_iff b c d).mp hok
  have hlen43 : (brTextOf b c d).length = 43 := brTextOf_length b c d hblt hclt hdlt
  have hbound : brNumsStartOf base size sf pp + (brTextOf b c d).length ≤
      (draftOf base size sf pp ds (normHexLen H0) rest).length := by
    rw [hlen43]
    exact brS_le base size sf pp ds (normHexLen H0) rest
  have hltb : (draftOf base size sf pp ds (normHexLen H0) rest)[b]? = some 60 := by
    rw [hb]
    exact draft_lt_byte base size sf pp ds (normHexLen H0) rest
  have hgtb : (draftOf base size sf pp ds (normHexLen H0) rest)[c - 1]? =
      some 62 := by
    rw [show c - 1 = lessThanPosOf base size sf pp + normHexLen H0 + 1 from by
      omega]
    exact draft_gt_byte base size sf pp ds (normHexLen H0) rest
  have houter : ∀ i, i < brNumsStartOf base size sf pp ∨
      brNumsStartOf base size sf pp + 43 ≤ i →
      st.pdf[i]? = (draftOf base size sf pp ds (normHexLen H0) rest)[i]? := by
    intro i hi
    rw [hpdf]
    rcases hi with hi | hi
    · exact splice_getElem?_left _ _ _ _ hi hbound
    · exact splice_getElem?_right _ _ _ _ (by omega) hbound
  refine ⟨ha, hltb, hgtb, hc, hd, ?_, ?_, ?_, hlen43, ?_, ?_, houter⟩
  · rw [hpdf]
    exact splice_length _ _ _ hbound
  · exact draft_region_brZeros base size sf pp ds (normHexLen H0) rest
  · rw [hpdf, ← hlen43]
    exact splice_region _ _ _ hbound
  · rw [houter b (Or.inr (by rw [hb]; unfold lessThanPosOf; omega))]
    exact hltb
  · rw [houter (c - 1)
      (Or.inr (by rw [hc, hb]; unfold lessThanPosOf brNumsStartOf; omega))]
    exact hgtb


/-- Shared facts about the writer state left by a successful
`preparePlaceholder`: buffer length, in-range offsets, and the `<` / `>`
delimiter bytes at `b` and `c - 1`. -/
theorem prepare_state_facts (base : List Nat) (size : Nat) (sf pp ds : List Nat)
    (H0 : Nat) (rest : List Nat) (st : WriterState) (a b c d : Nat)
    (h : preparePlaceholder base size sf pp ds H0 rest = some (st, a, b, c, d)) :
    st.pdf.length = (draftOf base size sf pp ds (normHexLen H0) rest).length ∧
    b + normHexLen H0 + 2 ≤ st.pdf.length ∧
    st.pdf[b]? = some 60 ∧
    st.pdf[c - 1]? = some 62 ∧
    2 ≤ normHexLen H0 := by
  obtain ⟨hH0, ha, hb, hc, hd, hok, hpdf, hph⟩ :=
    prepare_eq_some base size sf pp ds H0 rest st a b c d h
  obtain ⟨hblt, hclt, hdlt⟩ := (brTextOk_brTextOf_iff b c d).mp hok
  have hlen43 := brTextOf_length b c d hblt hclt hdlt
  have hbound : brNumsStartOf base size sf pp + (brTextOf b c d).length ≤
      (draftOf base size sf pp ds (normHexLen H0) rest).length := by
    rw [hlen43]
    exact brS_le base size sf pp ds (normHexLen H0) rest
  have hlen : st.pdf.length =
      (draftOf base size sf pp ds (normHexLen H0) rest).length := by
    rw [hpdf]
    exact splice_length _ _ _ hbound
  have hHge : 2 ≤ normHexLen H0 := by
    unfold normHexLen
    split <;> omega
  have hcle : b + normHexLen H0 + 2 ≤ st.pdf.length := by
    rw [hlen, hb]
    exact afterStart_le base size sf pp ds (normHexLen H0) rest
  have hltb : st.pdf[b]? = some 60 := by
    rw [hpdf, splice_getElem?_right _ _ _ _
      (by rw [hlen43, hb]; unfold lessThanPosOf; omega) hbound, hb]
    exact draft_lt_byte base size sf pp ds (normHexLen H0) rest
  have hgtb : st.pdf[c - 1]? = some 62 := by
    rw [hpdf, splice_getElem?_right _ _ _ _
      (by rw [hlen43, hc, hb]; unfold lessThanPosOf brNumsStartOf; omega) hbound]
    rw [show c - 1 = lessThanPosOf base size sf pp + normHexLen H0 + 1 from by
      rw [hc, hb]; omega]
    exact draft_gt_byte base size sf pp ds (normHexLen H0) rest
  exact ⟨hlen, hcle, hltb, hgtb, hHge⟩

/-- Unfolding equation of `injectCMS` on a state holding a placeholder. -/
theorem injectCMS_fields (pdf0 : List Nat) (s cs ce lt gt af hl : Nat)
    (cms : List Nat) :
    injectCMS { pdf := pdf0, ph := some ⟨s, cs, ce, lt, gt, af, hl⟩ } cms =
      if ce - cs + 1 < (hexUpper cms).length then none
      else
        some
          { pdf := pdf0.take cs ++
              (hexUpper cms ++
                List.replicate (ce - cs + 1 - (hexUpper cms).length) 48) ++
              pdf0.drop (ce + 1),
            ph := some ⟨s, cs, ce, lt, gt, af, hl⟩ } := rfl

/-- Unfolding equation of `computeByteRangeHash` on a state holding a
placeholder. -/
theorem computeByteRangeHash_fields (pdf0 : List Nat)
    (s cs ce lt gt af hl : Nat) (hash : List Nat → List Nat) :
    computeByteRangeHash hash
        { pdf := pdf0, ph := some ⟨s, cs, ce, lt, gt, af, hl⟩ } =
      some (hash ((pdf0.drop 0).take lt ++
        (pdf0.drop af).take (pdf0.length - af))) := rfl

/-- C2: for every CMS whose uppercase hex fits the reserved capacity,
`injectCMS` succeeds and the resulting buffer has the same total length, the
same `<` at offset `b` and `>` at offset `c - 1` as produced by
`preparePlaceholder`, every byte outside the `/Contents` interior
`[b+1, b+H]` unchanged, and the interior equal to the uppercase hex of the
CMS right-padded with `0` to exactly the placeholder capacity `H`. -/
theorem injectCMS_preserves_frame (base : List Nat) (size : Nat)
    (sf pp ds : List Nat) (H0 : Nat) (rest : List Nat) (st : WriterState)
    (a b c d : Nat) (cms : List Nat)
    (h : preparePlaceholder base size sf pp ds H0 rest = some (st, a, b, c, d))
    (hfit : 2 * cms.length ≤ normHexLen H0) :
    (injectCMS st cms).isSome = true ∧
    (injectCMSRun st cms).ph = st.ph ∧
    (injectCMSRun st cms).pdf.length = st.pdf.length ∧
    (injectCMSRun st cms).pdf[b]? = some 60 ∧
    (injectCMSRun st cms).pdf[c - 1]? = some 62 ∧
    ((injectCMSRun st cms).pdf.drop (b + 1)).take (normHexLen H0) =
      hexUpper cms ++ List.replicate (normHexLen H0 - 2 * cms.length) 48 ∧
    (∀ i, i < b + 1 ∨ b + 1 + normHexLen H0 ≤ i →
      (injectCMSRun st cms).pdf[i]? = st.pdf[i]?) := by
  obtain ⟨hH0, ha, hb, hc, hd, hok, hpdf, hph⟩ :=
    prepare_eq_some base size sf pp ds H0 rest st a b c d h
  obtain ⟨hlen, hcle, hltb, hgtb, hHge⟩ :=
    prepare_state_facts base size sf pp ds H0 rest st a b c d h
  obtain ⟨pdf0, ph0⟩ := st
  have hph' : ph0 = some ⟨size, b + 1, b + normHexLen H0, b,
      b + normHexLen H0 + 1, b + normHexLen H0 + 2, normHexLen H0⟩ := hph
  subst hph'
  have hcle' : b + normHexLen H0 + 2 ≤ pdf0.length := hcle
  have hltb' : pdf0[b]? = some 60 := hltb
  have hgtb' : pdf0[c - 1]? = some 62 := hgtb
  have hhex : (hexUpper cms).length = 2 * cms.length := hexUpper_length cms
  have hcap : ¬ (b + normHexLen H0 - (b + 1) + 1 < (hexUpper cms).length) := by
    omega
  have hcnt : b + normHexLen H0 - (b + 1) + 1 - (hexUpper cms).length =
      normHexLen H0 - 2 * cms.length := by
    omega
  have hpadlen : (hexUpper cms ++
      List.replicate (normHexLen H0 - 2 * cms.length) 48).length =
      normHexLen H0 := by
    rw [List.length_append, List.length_replicate, hhex]
    omega
  have hsome : injectCMS
      { pdf := pdf0, ph := some ⟨size, b + 1, b + normHexLen H0, b,
        b + normHexLen H0 + 1, b + normHexLen H0 + 2, normHexLen H0⟩ } cms =
      some { pdf := splice pdf0 (b + 1)
                 (hexUpper cms ++
                   List.replicate (normHexLen H0 - 2 * cms.length) 48),
             ph := some ⟨size, b + 1, b + normHexLen H0, b,
                    b + normHexLen H0 + 1, b + normHexLen H0 + 2,
                    normHexLen H0⟩ } := by
    rw [injectCMS_fields, if_neg hcap, hcnt]
    unfold splice
    simp only [hpadlen]
    rw [show b + 1 + normHexLen H0 = b + normHexLen H0 + 1 from by omega]
  have hrun : injectCMSRun
      { pdf := pdf0, ph := some ⟨size, b + 1, b + normHexLen H0, b,
        b + normHexLen H0 + 1, b + normHexLen H0 + 2, normHexLen H0⟩ } cms =
      { pdf := splice pdf0 (b + 1)
                 (hexUpper cms ++
                   List.replicate (normHexLen H0 - 2 * cms.length) 48),
        ph := some ⟨size, b + 1, b + normHexLen H0, b,
               b + normHexLen H0 + 1, b + normHexLen H0 + 2,
               normHexLen H0⟩ } := by
    unfold injectCMSRun
    rw [hsome]
    rfl
  have hbound2 : b + 1 + (hexUpper cms ++
      List.replicate (normHexLen H0 - 2 * cms.length) 48).length ≤
      pdf0.length := by
    rw [hpadlen]
    omega
  refine ⟨by rw [hsome]; rfl, by rw [hrun], ?_, ?_, ?_, ?_, ?_⟩
  · rw [hrun]
    exact splice_length _ _ _ hbound2
  · rw [hrun]
    exact (splice_getElem?_left _ _ _ _ (by omega) hbound2).trans hltb'
  · rw [hrun]
    exact (splice_getElem?_right _ _ _ _ (by rw [hpadlen]; omega)
      hbound2).trans hgtb'
  · rw [hrun]
    have := splice_region pdf0 (hexUpper cms ++
      List.replicate (normHexLen H0 - 2 * cms.length) 48) (b + 1) hbound2
    rw [hpadlen] at this
    exact this
  · intro i hi
    rw [hrun]
    rcases hi with hi | hi
    · exact splice_getElem?_left _ _ _ _ hi hbound2
    · exact splice_getElem?_right _ _ _ _ (by rw [hpadlen]; omega) hbound2

/-- C3: after `preparePlaceholder`, `injectCMS` fails exactly when the
uppercase hex of the CMS is longer than the reserved capacity `H`
(equivalently, the CMS DER is longer than `H/2` bytes), and a failing call
leaves the writer's buffer byte-for-byte unchanged — no partially injected
buffer is ever produced. -/
theorem injectCMS_failure_iff (base : List Nat) (size : Nat)
    (sf pp ds : List Nat) (H0 : Nat) (rest : List Nat) (st : WriterState)
    (a b c d : Nat) (cms : List Nat)
    (h : preparePlaceholder base size sf pp ds H0 rest = some (st, a, b, c, d)) :
    (injectCMS st cms = none ↔ normHexLen H0 < 2 * cms.length) ∧
    (normHexLen H0 < 2 * cms.length ↔ normHexLen H0 / 2 < cms.length) ∧
    (injectCMS st cms = none → injectCMSRun st cms = st) := by
  obtain ⟨hH0, ha, hb, hc, hd, hok, hpdf, hph⟩ :=
    prepare_eq_some base size sf pp ds H0 rest st a b c d h
  have hhex : (hexUpper cms).length = 2 * cms.length := hexUpper_length cms
  have heven : normHexLen H0 % 2 = 0 := by
    unfold normHexLen
    split
    · rename_i hsplit
      simp only [beq_iff_eq] at hsplit
      omega
    · rename_i hsplit
      simp only [beq_iff_eq] at hsplit
      omega
  have hHge : 2 ≤ normHexLen H0 := by
    unfold normHexLen
    split <;> omega
  obtain ⟨pdf0, ph0⟩ := st
  have hph' : ph0 = some ⟨size, b + 1, b + normHexLen H0, b,
      b + normHexLen H0 + 1, b + normHexLen H0 + 2, normHexLen H0⟩ := hph
  subst hph'
  have hcond_iff : (b + normHexLen H0 - (b + 1) + 1 < (hexUpper cms).length) ↔
      normHexLen H0 < 2 * cms.length := by
    omega
  refine ⟨?_, by omega, ?_⟩
  · rw [injectCMS_fields]
    by_cases hcond :
        b + normHexLen H0 - (b + 1) + 1 < (hexUpper cms).length
    · rw [if_pos hcond]
      exact iff_of_true rfl (hcond_iff.mp hcond)
    · rw [if_neg hcond]
      exact iff_of_false (by simp) (fun hh => hcond (hcond_iff.mpr hh))
  · intro hnone
    unfold injectCMSRun
    rw [hnone]
    rfl

/-- C4: after placeholder preparation, `computeByteRangeHash` hashes exactly
the concatenation of `pdf[0..b)` and `pdf[c..c+d)` for the finalized
ByteRange `[0, b, c, d]`, and two calls with no intervening mutation return
identical digest bytes. -/
theorem computeByteRangeHash_spec (base : List Nat) (size : Nat)
    (sf pp ds : List Nat) (H0 : Nat) (rest : List Nat) (st : WriterState)
    (a b c d : Nat) (hash : List Nat → List Nat)
    (h : preparePlaceholder base size sf pp ds H0 rest = some (st, a, b, c, d)) :
    computeByteRangeHash hash st =
      some (hash (st.pdf.take b ++ (st.pdf.drop c).take d)) ∧
    (∀ r1 r2, computeByteRangeHash hash st = some r1 →
      computeByteRangeHash hash st = some r2 → r1 = r2) := by
  obtain ⟨hH0, ha, hb, hc, hd, hok, hpdf, hph⟩ :=
    prepare_eq_some base size sf pp ds H0 rest st a b c d h
  obtain ⟨hlen, hcle, hltb, hgtb, hHge⟩ :=
    prepare_state_facts base size sf pp ds H0 rest st a b c d h
  obtain ⟨pdf0, ph0⟩ := st
  have hph' : ph0 = some ⟨size, b + 1, b + normHexLen H0, b,
      b + normHexLen H0 + 1, b + normHexLen H0 + 2, normHexLen H0⟩ := hph
  subst hph'
  have hlen' : pdf0.length =
      (draftOf base size sf pp ds (normHexLen H0) rest).length := hlen
  constructor
  · show computeByteRangeHash hash _ =
      some (hash (pdf0.take b ++ (pdf0.drop c).take d))
    rw [computeByteRangeHash_fields, List.drop_zero, ← hc]
    rw [show pdf0.length - c = d from by rw [hd, hlen']]
  · intro r1 r2 h1 h2
    rw [h1] at h2
    exact Option.some.inj h2

/-- Concrete writer state produced by `preparePlaceholder` on a tiny input
(used by the claim witnesses below). -/
def c1St : WriterState :=
  { pdf := splice (draftOf (str "BASE") 3 (str "E") [] (str "D") 4 (str "R"))
      (brNumsStartOf (str "BASE") 3 (str "E") []) (brTextOf 130 136 19),
    ph := some ⟨3, 131, 134, 130, 135, 136, 4⟩ }

set_option maxRecDepth 100000

/-- Witness for `byteRange_patch_correct` on a concrete tiny buffer. -/
theorem byteRange_patch_correct_witness :
    (draftOf (str "BASE") 3 (str "E") [] (str "D") (normHexLen 4)
      (str "R"))[(130 : Nat)]? = some 60 ∧
    c1St.pdf.length =
      (draftOf (str "BASE") 3 (str "E") [] (str "D") (normHexLen 4)
        (str "R")).length :=
  ⟨(byteRange_patch_correct (str "BASE") 3 (str "E") [] (str "D") 4 (str "R")
      c1St 0 130 136 19 (by decide)).2.1,
   (byteRange_patch_correct (str "BASE") 3 (str "E") [] (str "D") 4 (str "R")
      c1St 0 130 136 19 (by decide)).2.2.2.2.2.1⟩

/-- Witness for `injectCMS_preserves_frame` on the concrete prepared state. -/
theorem injectCMS_preserves_frame_witness :
    (injectCMS c1St [171]).isSome = true ∧
    (injectCMSRun c1St [171]).pdf.length = c1St.pdf.length :=
  ⟨(injectCMS_preserves_frame (str "BASE") 3 (str "E") [] (str "D") 4 (str "R")
      c1St 0 130 136 19 [171] (by decide) (by decide)).1,
   (injectCMS_preserves_frame (str "BASE") 3 (str "E") [] (str "D") 4 (str "R")
      c1St 0 130 136 19 [171] (by decide) (by decide)).2.2.1⟩

/-- Witness for `injectCMS_failure_iff` on the concrete prepared state: a
three-byte CMS needs six hex digits, exceeding the capacity of four. -/
theorem injectCMS_failure_iff_witness :
    injectCMS c1St [1, 2, 3] = none ∧ injectCMSRun c1St [1, 2, 3] = c1St := by
  have hnone : injectCMS c1St [1, 2, 3] = none :=
    (injectCMS_failure_iff (str "BASE") 3 (str "E") [] (str "D") 4 (str "R")
      c1St 0 130 136 19 [1, 2, 3] (by decide)).1.mpr (by decide)
  exact ⟨hnone,
    (injectCMS_failure_iff (str "BASE") 3 (str "E") [] (str "D") 4 (str "R")
      c1St 0 130 136 19 [1, 2, 3] (by decide)).2.2 hnone⟩

/-- Witness for `computeByteRangeHash_spec` on the concrete prepared state
with the identity digest. -/
theorem computeByteRangeHash_spec_witness :
    computeByteRangeHash id c1St =
      some (id (c1St.pdf.take 130 ++ (c1St.pdf.drop 136).take 19)) :=
  (computeByteRangeHash_spec (str "BASE") 3 (str "E") [] (str "D") 4 (str "R")
    c1St 0 130 136 19 id (by decide)).1

/-- Concrete writer state holding a freshly prepared two-hex-digit
placeholder over the buffer `AB<00>C`. -/
def phDemoBefore : WriterState :=
  { pdf := str "AB<00>C", ph := some ⟨9, 3, 4, 2, 5, 6, 2⟩ }

/-- The same writer after injecting the one-byte CMS `0xAB`. -/
def phDemoAfter : WriterState :=
  { pdf := str "AB<AB>C", ph := some ⟨9, 3, 4, 2, 5, 6, 2⟩ }


/-- C8 counterexample: a writer that has just injected a CMS still holds its
placeholder state, and a second `injectCMS` succeeds without any new
`preparePlaceholder` — the source never clears `this._ph` (`pdf_parser.js`
1219–1229 assigns `this.pdf` only). -/
theorem placeholder_not_consumed_counterexample :
    injectCMS phDemoBefore [171] = some phDemoAfter ∧
    phDemoAfter.ph ≠ none ∧
    (injectCMS phDemoAfter [171]).isSome = true := by
  refine ⟨by decide, by decide, by decide⟩

/-- C8 (amended): the placeholder state is established by `preparePlaceholder`
and retained, not consumed, by a successful `injectCMS`, so a further
injection of the same CMS succeeds without preparing a new placeholder. -/
theorem injectCMS_retains_placeholder (st : WriterState) (cmsDer : List Nat)
    (st' : WriterState) (h : injectCMS st cmsDer = some st') :
    st'.ph = st.ph ∧ (injectCMS st' cmsDer).isSome = true := by
  obtain ⟨pdf0, ph0⟩ := st
  cases ph0 with
  | none => exact absurd h (by simp [injectCMS])
  | some ph =>
    simp only [injectCMS] at h
    by_cases hcap :
        ph.contentsEnd - ph.contentsStart + 1 < (hexUpper cmsDer).length
    · rw [if_pos hcap] at h
      exact absurd h (by simp)
    · rw [if_neg hcap] at h
      have h2 := Option.some.inj h
      refine ⟨by rw [← h2], ?_⟩
      rw [← h2]
      simp only [injectCMS]
      rw [if_neg hcap]
      simp

/-- Witness for `injectCMS_retains_placeholder` at the concrete buffer of the
counterexample. -/
theorem injectCMS_retains_placeholder_witness :
    phDemoAfter.ph = phDemoBefore.ph ∧
      (injectCMS phDemoAfter [171]).isSome = true :=
  injectCMS_retains_placeholder phDemoBefore [171] phDemoAfter (by decide)

/-! ## Orchestrator gating (`pades_manager.js` lines 175–181 and 272–286)

`parseKeyUsageAndEKU` lives in `x509_extract.js`, which is not among the
provided sources.  Modelled from the spec: the extractor returns the KeyUsage
bits (at minimum `digitalSignature` and `contentCommitment`) when the KeyUsage
extension is present, and no KeyUsage object otherwise; `eku` is the list of
ExtendedKeyUsage OIDs.  The manager destructures with defaults
`{ keyUsage = {}, eku = [] }`, so an absent KeyUsage behaves as an object with
no values. -/

/-- Parsed KeyUsage object as seen by the orchestrator: the two bits it reads
by name plus the values of any further named bits the extractor included. -/
structure KeyUsageView where
  digitalSignature : Bool
  contentCommitment : Bool
  otherBits : List Bool
deriving DecidableEq

/-- `Object.values(keyUsage).some(Boolean)` — true iff some KeyUsage bit is
set; `none` models the `{}` default used when the extension is absent. -/
def kuPresentBits : Option KeyUsageView → Bool
  | none => false
  | some k => (k.digitalSignature :: k.contentCommitment :: k.otherBits).any id

/-- `keyUsage.digitalSignature` (falsy on the `{}` default). -/
def kuDS : Option KeyUsageView → Bool
  | none => false
  | some k => k.digitalSignature

/-- `keyUsage.contentCommitment` (falsy on the `{}` default). -/
def kuCC : Option KeyUsageView → Bool
  | none => false
  | some k => k.contentCommitment

/-- OID of id-kp-timeStamping as a byte string. -/
def idKpTimeStamping : List Nat := str "1.3.6.1.5.5.7.3.8"

/-- The `canSign` decision of `PAdESManager.signPAdES_T` (lines 176–180):
`canSignByKU = !keyUsageBitsPresent || digitalSignature || contentCommitment`,
`tsaOnly = eku.length > 0 && every oid === id-kp-timeStamping`,
`canSign = canSignByKU && !tsaOnly`. -/
def canSignCode (ku : Option KeyUsageView) (eku : List (List Nat)) : Bool :=
  (!(kuPresentBits ku) || kuDS ku || kuCC ku) &&
    !(!eku.isEmpty && eku.all (fun oid => oid == idKpTimeStamping))

/-- The claim's wording of the decision: canSign is true unless the KeyUsage
object is present with neither digitalSignature nor contentCommitment set, or
the EKU list is non-empty and consists solely of id-kp-timeStamping. -/
def canSignClaim (ku : Option KeyUsageView) (eku : List (List Nat)) : Bool :=
  !((ku.isSome && !(kuDS ku) && !(kuCC ku)) ||
    (!eku.isEmpty && eku.all (fun oid => oid == idKpTimeStamping)))

/-- Mode selection of `signPAdES_T` (lines 272–286 and 342–356): the
`!canSign` branch silently runs the DocTimeStamp fallback and reports
`docts-fallback`; otherwise the mode depends on the append option. -/
def signModeOf (canSign append : Bool) : String :=
  if !canSign then "docts-fallback"
  else if append then "pades-t+docts" else "pades-t"

/-- C5 counterexample: a certificate whose KeyUsage extension is present with
every bit false (so neither digitalSignature nor contentCommitment is set) and
an empty EKU list.  The claim requires canSign to be false, but the code's
`Object.values(keyUsage).some(Boolean)` test sees no set bit and decides
canSign = true. -/
theorem canSign_claim_counterexample :
    canSignCode (some ⟨false, false, []⟩) [] = true ∧
      canSignClaim (some ⟨false, false, []⟩) [] = false := by
  constructor <;> rfl

/-- C5 (amended): canSign is true unless at least one KeyUsage bit is set with
neither digitalSignature nor contentCommitment among them, or the EKU list is
non-empty and consists solely of id-kp-timeStamping; and whenever canSign is
false the orchestrator returns mode "docts-fallback" (no CannotSign error is
raised: the fallback branch only calls addDocTimeStamp and returns). -/
theorem canSign_gating (ku : Option KeyUsageView) (eku : List (List Nat))
    (append : Bool) :
    (canSignCode ku eku =
      !((kuPresentBits ku && !(kuDS ku) && !(kuCC ku)) ||
        (!eku.isEmpty && eku.all (fun oid => oid == idKpTimeStamping)))) ∧
    (canSignCode ku eku = false →
      signModeOf (canSignCode ku eku) append = "docts-fallback") := by
  constructor
  · unfold canSignCode
    cases hp : kuPresentBits ku <;> cases hd : kuDS ku <;> cases hc : kuCC ku <;>
      cases he : (!eku.isEmpty && eku.all (fun oid => oid == idKpTimeStamping)) <;>
        simp [hp, hd, hc, he]
  · intro h
    rw [h]
    rfl

/-- Witness for `canSign_gating`: KeyUsage present with only keyAgreement set
(spec scenario 2) routes through the fallback with mode "docts-fallback". -/
theorem canSign_gating_witness :
    canSignCode (some ⟨false, false, [true]⟩) [] = false ∧
      signModeOf (canSignCode (some ⟨false, false, [true]⟩) []) true =
        "docts-fallback" :=
  ⟨by decide, (canSign_gating (some ⟨false, false, [true]⟩) [] true).2 (by decide)⟩

/-! ## _appendXrefTrailer (`pdf_parser.js` 650–700) and
ensureAcroFormAndEmptySigField (`pdf_parser.js` 709–949) -/

/-- Serialize the new objects in list order starting at byte offset `pos`,
returning the concatenated chunks and the `(objNum, offset)` xref records
(`pdf_parser.js` 679–695). -/
def chunkObjs : Nat → List (Nat × List Nat) → List Nat × List (Nat × Nat)
  | _, [] => ([], [])
  | pos, (n, content) :: rest =>
    let chunk := objChunk n content
    let r := chunkObjs (pos + chunk.length) rest
    (chunk ++ r.1, (n, pos) :: r.2)

/-- Insertion sort by object number, the effect of
`newObjs.slice().sort((a,b) => a.objNum - b.objNum)`. -/
def insertByObj (x : Nat × Nat) : List (Nat × Nat) → List (Nat × Nat)
  | [] => [x]
  | y :: ys => if x.1 ≤ y.1 then x :: y :: ys else y :: insertByObj x ys

/-- Sorted view of the xref records. -/
def sortByObj (xs : List (Nat × Nat)) : List (Nat × Nat) :=
  xs.foldr insertByObj []

/-- Group the sorted records into maximal runs of consecutive object numbers
(`pdf_parser.js` 653–662). -/
def groupRuns : List (Nat × Nat) → List (Nat × List Nat)
  | [] => []
  | (n, off) :: rest =>
    match groupRuns rest with
    | [] => [(n, [off])]
    | (st, offs) :: gs =>
      if st == n + 1 then (n, off :: offs) :: gs
      else (n, [off]) :: (st, offs) :: gs

/-- The classical xref section `xref\n` + per-group `start count\n` header and
`p10(offset) 00000 n \n` entry lines (`pdf_parser.js` 663–672). -/
def buildXrefSorted (xs : List (Nat × Nat)) : List Nat :=
  str "xref\n" ++
    ((groupRuns (sortByObj xs)).map (fun g =>
      decStr g.1 ++ ([32] ++ (decStr g.2.length ++ ([10] ++
        (g.2.map (fun off => p10 off ++ str " 00000 n \n")).flatten))))).flatten

/-- The appended trailer
`trailer\n<< /Size S /Root R 0 R /Prev P >>\nstartxref\nX\n%%EOF\n`
(`pdf_parser.js` 698, also emitted verbatim by `preparePlaceholder` at 1068). -/
def trailerStr (size rootNum prev xrefPos : Nat) : List Nat :=
  str "trailer\n<< /Size " ++ (decStr size ++ (str " /Root " ++ (decStr rootNum ++
    (str " 0 R /Prev " ++ (decStr prev ++ (str " >>\nstartxref\n" ++
      (decStr xrefPos ++ str "\n%%EOF\n")))))))

/-- `_appendXrefTrailer` (`pdf_parser.js` 675–700): base, object chunks, xref
section, trailer.  `rootNum` is the object number inside the input's
`/Root N 0 R` reference. -/
def appendXrefTrailer (base : List Nat) (objs : List (Nat × List Nat))
    (size rootNum prev : Nat) : List Nat :=
  base ++ (chunkObjs base.length objs).1 ++
    buildXrefSorted (chunkObjs base.length objs).2 ++
    trailerStr size rootNum prev
      (base.length + (chunkObjs base.length objs).1.length)

/-- The `updates.set(objNum, …)` operation of
`ensureAcroFormAndEmptySigField`: overwrite the entry when the key is
present, append otherwise. -/
def msetUpd (m : List (Nat × List Nat)) (k : Nat) (v : List Nat) :
    List (Nat × List Nat) :=
  if m.any (fun e => e.1 == k) then
    m.map (fun e => if e.1 == k then (k, v) else e)
  else m ++ [(k, v)]

/-- The data-dependent outcomes of one successful run of
`ensureAcroFormAndEmptySigField` (`pdf_parser.js` 709–931): which branch was
taken and whether each string-rewriting step changed its dictionary, plus the
object numbers and replacement dictionary strings involved.  Each field
corresponds to one conditional `updates.set` site in the source. -/
structure EnsureCtx where
  fieldObjNum : Nat
  widgetObjNum : Nat
  rootObjNum : Nat
  acroObjNum : Nat
  existingField : Bool
  hasKids : Bool
  fieldDictChanged : Bool
  newWidgetDict : List Nat
  newFieldDict : List Nat
  nfFieldDict : List Nat
  nfWidgetDict : List Nat
  pageObjNum : Nat
  pageChanged : Bool
  nfPageDict : List Nat
  recomposedWidget : List Nat
  hasTargetPage : Bool
  targetPageObjNum : Nat
  targetPageChanged : Bool
  targetPageDict : List Nat
  hasOldPageCleanup : Bool
  oldPageObjNum : Nat
  oldPageDict : List Nat
  acroChanged : Bool
  acroDict : List Nat
  rootChanged : Bool
  rootDict : List Nat

/-- The `updates` map of `ensureAcroFormAndEmptySigField` as accumulated by
lines 767–920 of `pdf_parser.js`.  The recomposed widget dictionary of line
886–892 is inserted unconditionally between the branch-specific updates and
the page/acro/root updates. -/
def ensureUpdates (cx : EnsureCtx) : List (Nat × List Nat) :=
  let u1 : List (Nat × List Nat) :=
    if cx.existingField then
      (if !cx.hasKids then
        (let ua := msetUpd [] cx.widgetObjNum cx.newWidgetDict
         if cx.fieldDictChanged then msetUpd ua cx.fieldObjNum cx.newFieldDict
         else ua)
       else [])
    else
      (let ua := msetUpd [] cx.fieldObjNum cx.nfFieldDict
       let ub := msetUpd ua cx.widgetObjNum cx.nfWidgetDict
       if cx.pageChanged then msetUpd ub cx.pageObjNum cx.nfPageDict else ub)
  let u2 := msetUpd u1 cx.widgetObjNum cx.recomposedWidget
  let u3 :=
    if cx.hasTargetPage && cx.targetPageChanged then
      msetUpd u2 cx.targetPageObjNum cx.targetPageDict
    else u2
  let u4 :=
    if cx.hasTargetPage && cx.hasOldPageCleanup then
      msetUpd u3 cx.oldPageObjNum cx.oldPageDict
    else u3
  let u5 := if cx.acroChanged then msetUpd u4 cx.acroObjNum cx.acroDict else u4
  if cx.rootChanged then msetUpd u5 cx.rootObjNum cx.rootDict else u5

/-- The tail of `ensureAcroFormAndEmptySigField` (`pdf_parser.js` 922–948):
hand back the input buffer when no update was queued, otherwise append one
incremental update with `_appendXrefTrailer`. -/
def ensureAcroFormResult (base : List Nat) (cx : EnsureCtx)
    (size rootNum prev : Nat) : List Nat :=
  if (ensureUpdates cx).isEmpty then base
  else appendXrefTrailer base (ensureUpdates cx) size rootNum prev

theorem msetUpd_ne_nil (m : List (Nat × List Nat)) (k : Nat) (v : List Nat) :
    msetUpd m k v ≠ [] := by
  unfold msetUpd
  split
  · rename_i hany
    cases m with
    | nil => simp at hany
    | cons x xs => simp
  · simp

theorem trailerStr_ne_nil (size rootNum prev xrefPos : Nat) :
    trailerStr size rootNum prev xrefPos ≠ [] := by
  unfold trailerStr
  intro h
  obtain ⟨h1, h2⟩ := List.append_eq_nil.mp h
  exact absurd h1 (by decide)

/-- C9: `ensureAcroFormAndEmptySigField` always queues the recomposed widget
dictionary before testing `updates.size === 0`, so the early-return branch
that would hand back the input unchanged is unreachable: every successful run
strictly extends the input with exactly one appended incremental update. -/
theorem ensure_strictly_extends (base : List Nat) (cx : EnsureCtx)
    (size rootNum prev : Nat) :
    ensureUpdates cx ≠ [] ∧
    (∃ suffix, ensureAcroFormResult base cx size rootNum prev = base ++ suffix ∧
      suffix ≠ []) ∧
    ensureAcroFormResult base cx size rootNum prev ≠ base := by
  have hne : ensureUpdates cx ≠ [] := by
    simp only [ensureUpdates]
    split_ifs <;> exact msetUpd_ne_nil _ _ _
  have hres : ensureAcroFormResult base cx size rootNum prev =
      appendXrefTrailer base (ensureUpdates cx) size rootNum prev := by
    unfold ensureAcroFormResult
    rw [if_neg (by simp [List.isEmpty_iff, hne])]
  have happ : appendXrefTrailer base (ensureUpdates cx) size rootNum prev =
      base ++ ((chunkObjs base.length (ensureUpdates cx)).1 ++
        (buildXrefSorted (chunkObjs base.length (ensureUpdates cx)).2 ++
          trailerStr size rootNum prev
            (base.length +
              (chunkObjs base.length (ensureUpdates cx)).1.length))) := by
    unfold appendXrefTrailer
    simp only [List.append_assoc]
  have hsufne : ((chunkObjs base.length (ensureUpdates cx)).1 ++
      (buildXrefSorted (chunkObjs base.length (ensureUpdates cx)).2 ++
        trailerStr size rootNum prev
          (base.length +
            (chunkObjs base.length (ensureUpdates cx)).1.length))) ≠ [] := by
    intro hnil
    obtain ⟨h1, h2⟩ := List.append_eq_nil.mp hnil
    obtain ⟨h3, h4⟩ := List.append_eq_nil.mp h2
    exact trailerStr_ne_nil _ _ _ _ h4
  refine ⟨hne, ⟨_, hres.trans happ, hsufne⟩, ?_⟩
  rw [hres, happ]
  intro hbad
  have := congrArg List.length hbad
  rw [List.length_append] at this
  have hlen : ((chunkObjs base.length (ensureUpdates cx)).1 ++
      (buildXrefSorted (chunkObjs base.length (ensureUpdates cx)).2 ++
        trailerStr size rootNum prev
          (base.length +
            (chunkObjs base.length (ensureUpdates cx)).1.length))).length = 0 := by
    omega
  exact hsufne (List.eq_nil_of_length_eq_zero hlen)

/-! ## Xref chain parsing (`pdf_parser.js` 77–128)

`_parseXrefAt` walks one classical xref table: subsection headers
`(\d+)\s+(\d+)`, entry lines `(\d{10})\s+(\d{5})\s+([nf])`, and on `trailer`
extracts the balanced dictionary and recurses into `/Prev`, guarded by a
visited set.  Only `n` entries are inserted, and only when the object number
is not yet in the map, so the first definition encountered — the most recent
one, since newer tables are processed before their `/Prev` predecessors —
wins.  The model returns the stream of parsed entry records in processing
order; the map is the first-wins fold of that stream. -/

/-- Check that `pat` occurs at position `i` of `s`. -/
def substrAt (s : List Nat) (i : Nat) (pat : List Nat) : Bool :=
  pat.isPrefixOf (s.drop i)

/-- `_skipWs` (`pdf_parser.js` 46–53) as an index transformer. -/
def skipWsPos (s : List Nat) (pos : Nat) : Nat :=
  pos + (spanWs (s.drop pos)).1.length

/-- Sticky regex `(\d+)\s+(\d+)` at `pos`: the subsection header
(`pdf_parser.js` 98–104). -/
def stickyTwoNums (s : List Nat) (pos : Nat) : Option (Nat × Nat × Nat) :=
  let t := s.drop pos
  let r1 := spanDigits t
  if r1.1.isEmpty then none else
  let r2 := spanWs r1.2
  if r2.1.isEmpty then none else
  let r3 := spanDigits r2.2
  if r3.1.isEmpty then none else
  some (digitsVal r1.1, digitsVal r3.1,
    pos + r1.1.length + r2.1.length + r3.1.length)

/-- Sticky regex `(\d{10})\s+(\d{5})\s+([nf])` at `pos`: one xref entry
(`pdf_parser.js` 106–110).  A digit run longer than the required width makes
the following `\s+` fail, so the run lengths must be exactly 10 and 5. -/
def stickyEntry (s : List Nat) (pos : Nat) : Option (Nat × Bool × Nat) :=
  let t := s.drop pos
  let r1 := spanDigits t
  if r1.1.length != 10 then none else
  let r2 := spanWs r1.2
  if r2.1.isEmpty then none else
  let r3 := spanDigits r2.2
  if r3.1.length != 5 then none else
  let r4 := spanWs r3.2
  if r4.1.isEmpty then none else
  match r4.2 with
  | 110 :: _ => some (digitsVal r1.1, false,
      pos + 10 + r2.1.length + 5 + r4.1.length + 1)
  | 102 :: _ => some (digitsVal r1.1, true,
      pos + 10 + r2.1.length + 5 + r4.1.length + 1)
  | _ => none

/-- Scan for the next `<<` or `>>` token at or after `i`
(the `/<<|>>/g` scanner of `_extractDictAt`, `pdf_parser.js` 57–61). -/
def findTok (s : List Nat) : Nat → Nat → Option (Nat × Bool)
  | 0, _ => none
  | f + 1, i =>
    if i + 2 > s.length then none
    else if substrAt s i (str "<<") then some (i, true)
    else if substrAt s i (str ">>") then some (i, false)
    else findTok s f (i + 1)

/-- Depth-counting balanced `<<…>>` extraction loop
(`pdf_parser.js` 61–73), returning the span `(start, endPos)`. -/
def extractDictScan (s : List Nat) :
    Nat → Nat → Nat → Option Nat → Option (Nat × Nat)
  | 0, _, _, _ => none
  | f + 1, i, depth, start =>
    match findTok s (s.length + 1) i with
    | none => none
    | some (j, isOpen) =>
      if isOpen then
        extractDictScan s f (j + 2) (depth + 1)
          (if depth == 0 then some j else start)
      else
        if depth == 0 then none
        else if depth == 1 then
          match start with
          | some st => some (st, j + 2)
          | none => none
        else extractDictScan s f (j + 2) (depth - 1) start

/-- `_extractDictAt` (`pdf_parser.js` 55–75). -/
def extractDictAt (s : List Nat) (idx : Nat) : Option (Nat × Nat) :=
  if s.length ≤ idx then none
  else extractDictScan s (s.length + 1) idx 0 none

/-- First occurrence of `pat` at or after `i` (`String.prototype.indexOf`
with a start position). -/
def indexOfFrom (s pat : List Nat) : Nat → Nat → Option Nat
  | 0, _ => none
  | f + 1, i =>
    if s.length < i + pat.length then none
    else if substrAt s i pat then some i
    else indexOfFrom s pat f (i + 1)

/-- Matcher for `/Prev\s+(\d+)` at a position of a dictionary string. -/
def matchPrevAt (dict : List Nat) (i : Nat) : Option Nat :=
  if substrAt dict i (str "/Prev") then
    let t := dict.drop (i + 5)
    let r1 := spanWs t
    if r1.1.isEmpty then none else
    let r2 := spanDigits r1.2
    if r2.1.isEmpty then none else some (digitsVal r2.1)
  else none

/-- First match of `/Prev\s+(\d+)` in a dictionary string
(`pdf_parser.js` 93). -/
def findPrev (dict : List Nat) : Nat → Nat → Option Nat
  | 0, _ => none
  | f + 1, i =>
    if dict.length ≤ i then none
    else
      match matchPrevAt dict i with
      | some v => some v
      | none => findPrev dict f (i + 1)

/-- One parsed xref entry record: object number, ten-digit offset, and
whether the entry was `f` (free). -/
structure XEntry where
  obj : Nat
  off : Nat
  free : Bool
deriving DecidableEq

/-- The inner `for` loop over one subsection (`pdf_parser.js` 105–117).
Returns the parsed entries in order and the position after the subsection,
or `none` when an entry failed to parse — which in the source `return`s from
the whole `_parseXrefAt`, keeping the entries inserted so far. -/
def parseRun (s : List Nat) : Nat → Nat → Nat → List XEntry × Option Nat
  | 0, _, pos => ([], some pos)
  | cnt + 1, objNum, pos =>
    match stickyEntry s pos with
    | none => ([], none)
    | some (off, isFree, pos1) =>
      let pos2 := skipWsPos s pos1
      let r := parseRun s cnt (objNum + 1) pos2
      (⟨objNum, off, isFree⟩ :: r.1, r.2)

/-- The `while` loop of `_parseXrefAt` (`pdf_parser.js` 86–118),
parameterized by the `/Prev` recursion. -/
def parseXrefLoopF (s : List Nat)
    (recurse : Nat → List Nat → List XEntry × List Nat) :
    Nat → Nat → List Nat → List XEntry × List Nat
  | 0, _, visited => ([], visited)
  | lf + 1, pos, visited =>
    if s.length ≤ pos then ([], visited)
    else if substrAt s pos (str "trailer") then
      match indexOfFrom s (str "<<") (s.length + 1) (skipWsPos s (pos + 7)) with
      | none => ([], visited)
      | some dictStart =>
        match extractDictAt s dictStart with
        | none => ([], visited)
        | some sp =>
          match findPrev ((s.drop sp.1).take (sp.2 - sp.1))
              (sp.2 - sp.1 + 1) 0 with
          | none => ([], visited)
          | some prev => recurse prev visited
    else
      match stickyTwoNums s pos with
      | none => ([], visited)
      | some (startObj, count, pos1) =>
        let r := parseRun s count startObj pos1
        match r.2 with
        | none => (r.1, visited)
        | some pos2 =>
          let rec2 := parseXrefLoopF s recurse lf pos2 visited
          (r.1 ++ rec2.1, rec2.2)

/-- `_parseXrefAt` (`pdf_parser.js` 77–119) with explicit fuel for the
`/Prev` recursion: visited-set check, bounds check, `xref` keyword check,
then the subsection loop.  Returns the entry stream in processing order
(newest tables first) and the extended visited set. -/
def parseXrefAt (s : List Nat) : Nat → Nat → List Nat → List XEntry × List Nat
  | 0, _, visited => ([], visited)
  | fuel + 1, offset, visited =>
    if visited.contains offset then ([], visited)
    else
      if s.length ≤ offset then ([], offset :: visited)
      else if substrAt s offset (str "xref") then
        parseXrefLoopF s (fun prev vis => parseXrefAt s fuel prev vis)
          (s.length + 1) (skipWsPos s (offset + 4)) (offset :: visited)
      else ([], offset :: visited)

/-- The entry stream of the whole trailer → xref → `/Prev` walk starting at
`startxref`. -/
def xrefEntries (s : List Nat) (startxref : Nat) : List XEntry :=
  (parseXrefAt s (s.length + 1) startxref []).1

/-- One `map.set` step of `_parseXrefAt` (`pdf_parser.js` 111–115): free
entries are never inserted and an existing key is never overwritten. -/
def xrefInsert (m : List (Nat × Nat)) (e : XEntry) : List (Nat × Nat) :=
  if e.free then m
  else if (m.lookup e.obj).isSome then m
  else m ++ [(e.obj, e.off)]

/-- `_buildXrefMap` (`pdf_parser.js` 121–128): fold the entry stream through
the insert-if-absent step. -/
def buildXrefMap (s : List Nat) (startxref : Nat) : List (Nat × Nat) :=
  (xrefEntries s startxref).foldl xrefInsert []

theorem lookup_append_pairs (l1 l2 : List (Nat × Nat)) (k : Nat) :
    (l1 ++ l2).lookup k =
      match l1.lookup k with
      | some v => some v
      | none => l2.lookup k := by
  induction l1 with
  | nil => simp [List.lookup]
  | cons a t ih =>
    obtain ⟨x, y⟩ := a
    simp only [List.cons_append, List.lookup]
    cases hk : k == x
    · exact ih
    · rfl

theorem foldl_xrefInsert_lookup (es : List XEntry) (m : List (Nat × Nat))
    (k : Nat) :
    (es.foldl xrefInsert m).lookup k =
      match m.lookup k with
      | some v => some v
      | none => (es.find? (fun e => !e.free && e.obj == k)).map XEntry.off := by
  induction es generalizing m with
  | nil =>
    simp only [List.foldl_nil, List.find?_nil, Option.map_none]
    cases m.lookup k <;> rfl
  | cons e es ih =>
    simp only [List.foldl_cons]
    rw [ih (xrefInsert m e)]
    simp only [List.find?_cons]
    by_cases hfree : e.free = true
    · have hins : xrefInsert m e = m := by
        unfold xrefInsert
        rw [if_pos hfree]
      rw [hins, show (!e.free && e.obj == k) = false from by simp [hfree]]
    · have hfree' : e.free = false := by simpa using hfree
      by_cases hobj : e.obj = k
      · subst hobj
        by_cases hmem : (m.lookup e.obj).isSome = true
        · obtain ⟨v, hv⟩ := Option.isSome_iff_exists.mp hmem
          have hins : xrefInsert m e = m := by
            unfold xrefInsert
            rw [if_neg (by simp [hfree']), if_pos hmem]
          rw [hins, hv,
            show (!e.free && e.obj == e.obj) = true from by simp [hfree']]
        · have hnone : m.lookup e.obj = none :=
            Option.not_isSome_iff_eq_none.mp hmem
          have hins : xrefInsert m e = m ++ [(e.obj, e.off)] := by
            unfold xrefInsert
            rw [if_neg (by simp [hfree']), if_neg (by simp [hnone])]
          rw [hins, lookup_append_pairs, hnone,
            show ([(e.obj, e.off)] : List (Nat × Nat)).lookup e.obj =
              some e.off from by simp [List.lookup],
            show (!e.free && e.obj == e.obj) = true from by simp [hfree']]
          rfl
      · have hbk : (k == e.obj) = false := by
          simp only [beq_eq_false_iff_ne, ne_eq]
          exact fun hkk => hobj hkk.symm
        by_cases hmem : (m.lookup e.obj).isSome = true
        · have hins : xrefInsert m e = m := by
            unfold xrefInsert
            rw [if_neg (by simp [hfree']), if_pos hmem]
          rw [hins,
            show (!e.free && e.obj == k) = false from by simp [hfree', hobj]]
        · have hnone : m.lookup e.obj = none :=
            Option.not_isSome_iff_eq_none.mp hmem
          have hins : xrefInsert m e = m ++ [(e.obj, e.off)] := by
            unfold xrefInsert
            rw [if_neg (by simp [hfree']), if_neg (by simp [hnone])]
          rw [hins, lookup_append_pairs,
            show ([(e.obj, e.off)] : List (Nat × Nat)).lookup k = none from by
              simp [List.lookup, hbk],
            show (!e.free && e.obj == k) = false from by simp [hfree', hobj]]
          cases hml : m.lookup k <;> rfl

/-- C7: the xref map built by walking the trailer → xref → `/Prev` chain maps
every object number to the offset of the first non-free (`n`) entry for it in
the traversal stream — the most recent definition, since the walk processes
each xref section before its `/Prev` predecessors — and `f` (free) entries
are never inserted: every mapped offset comes from an `n` record. -/
theorem xrefMap_most_recent (s : List Nat) (sx k : Nat) :
    (buildXrefMap s sx).lookup k =
      ((xrefEntries s sx).find? (fun e => !e.free && e.obj == k)).map
        XEntry.off ∧
    (∀ v, (buildXrefMap s sx).lookup k = some v →
      ∃ e, e ∈ xrefEntries s sx ∧ e.free = false ∧ e.obj = k ∧ e.off = v) := by
  have hmain : (buildXrefMap s sx).lookup k =
      ((xrefEntries s sx).find? (fun e => !e.free && e.obj == k)).map
        XEntry.off := by
    unfold buildXrefMap
    rw [foldl_xrefInsert_lookup]
    rfl
  refine ⟨hmain, ?_⟩
  intro v hv
  rw [hmain] at hv
  cases hfind : (xrefEntries s sx).find? (fun e => !e.free && e.obj == k) with
  | none => rw [hfind] at hv; simp at hv
  | some e =>
    rw [hfind] at hv
    have hmem := List.mem_of_find?_eq_some hfind
    have hprop := List.find?_some hfind
    simp only [Bool.and_eq_true, Bool.not_eq_true', beq_iff_eq] at hprop
    refine ⟨e, hmem, hprop.1, hprop.2, ?_⟩
    simpa using hv

/-! ## readObject (`pdf_parser.js` 144–210)

`readObject` looks the object number up in the xref map, checks a sticky
`(\d+)\s+(\d+)\s+obj\b` header at the recorded offset (comparing only the
first captured number with the requested one — the generation digits are not
compared against `0`), extracts the balanced dictionary after it, and on any
failure falls back to `legacyRead`: a whole-buffer scan over matches of
`objNum\s+0\s+obj\b` that keeps the last candidate of maximal priority. -/

/-- Longest `[A-Za-z]` run at the head of the list with the rest. -/
def spanAlpha : List Nat → List Nat × List Nat
  | [] => ([], [])
  | c :: cs =>
    if isAlphaB c then
      let (r, t) := spanAlpha cs
      (c :: r, t)
    else ([], c :: cs)

/-- The result record `{ dictStr, start, end }` of `readObject`; `start` and
`end` are `-1` when the fallback could not relocate the dictionary. -/
structure ReadResult where
  dictStr : List Nat
  start : Int
  endPos : Int
deriving DecidableEq

/-- Sticky regex `(\d+)\s+(\d+)\s+obj\b` at `pos` (`pdf_parser.js` 198–200):
the first captured number and the position after the match. -/
def stickyObjHeader (s : List Nat) (pos : Nat) : Option (Nat × Nat) :=
  let t := s.drop pos
  let r1 := spanDigits t
  if r1.1.isEmpty then none else
  let r2 := spanWs r1.2
  if r2.1.isEmpty then none else
  let r3 := spanDigits r2.2
  if r3.1.isEmpty then none else
  let r4 := spanWs r3.2
  if r4.1.isEmpty then none else
  if (str "obj").isPrefixOf r4.2 then
    match r4.2.drop 3 with
    | [] => some (digitsVal r1.1,
        pos + r1.1.length + r2.1.length + r3.1.length + r4.1.length + 3)
    | c :: _ =>
      if isWordB c then none
      else some (digitsVal r1.1,
        pos + r1.1.length + r2.1.length + r3.1.length + r4.1.length + 3)
  else none

/-- The regex `objNum\s+0\s+obj\b` of `legacyRead` (`pdf_parser.js` 150) at
one position, returning the position after the match (`re.lastIndex`). -/
def matchObjHdrAt (s : List Nat) (objNum : Nat) (i : Nat) : Option Nat :=
  if substrAt s i (decStr objNum) then
    let r1 := spanWs (s.drop (i + (decStr objNum).length))
    if r1.1.isEmpty then none else
    match r1.2 with
    | 48 :: rest =>
      let r2 := spanWs rest
      if r2.1.isEmpty then none else
      if (str "obj").isPrefixOf r2.2 then
        match r2.2.drop 3 with
        | [] => some (i + (decStr objNum).length + r1.1.length + 1 +
            r2.1.length + 3)
        | c :: _ =>
          if isWordB c then none
          else some (i + (decStr objNum).length + r1.1.length + 1 +
            r2.1.length + 3)
      else none
    | _ => none
  else none

/-- First `legacyRead` header match at or after `i`: the body start position
(`re.lastIndex` after a successful `re.exec`). -/
def findObjHdr (s : List Nat) (objNum : Nat) : Nat → Nat → Option Nat
  | 0, _ => none
  | f + 1, i =>
    if s.length < i then none
    else
      match matchObjHdrAt s objNum i with
      | some e => some e
      | none => findObjHdr s objNum f (i + 1)

/-- The regex `/\/Type\s*\/([A-Za-z]+)/` at one position of a dictionary
string. -/
def matchTypeAt (d : List Nat) (i : Nat) : Option (List Nat) :=
  if substrAt d i (str "/Type") then
    let r1 := spanWs (d.drop (i + 5))
    match r1.2 with
    | 47 :: rest =>
      let r2 := spanAlpha rest
      if r2.1.isEmpty then none else some r2.1
    | _ => none
  else none

/-- `typeMatch = /\/Type\s*\/([A-Za-z]+)/.exec(dictStr)` (`pdf_parser.js`
164): the capture of the first matching position. -/
def findType (d : List Nat) : Nat → Nat → Option (List Nat)
  | 0, _ => none
  | f + 1, i =>
    if d.length ≤ i then none
    else
      match matchTypeAt d i with
      | some t => some t
      | none => findType d f (i + 1)

/-- The priority table of `legacyRead` for a captured `/Type` name
(`pdf_parser.js` 167–172). -/
def typedPriority (t : List Nat) : Int :=
  if t = str "Page" then 5
  else if t = str "Pages" ∨ t = str "Catalog" then 4
  else if t = str "AcroForm" ∨ t = str "Annot" ∨ t = str "Sig" ∨
      t = str "DocTimeStamp" then 3
  else if t = str "FontDescriptor" then 0
  else 2

/-- Priority of a candidate: typed candidates by the table, untyped
candidates compete at priority 1 (`pdf_parser.js` 179–185). -/
def priOf (c : ReadResult) : Int :=
  match findType c.dictStr (c.dictStr.length + 1) 0 with
  | some t => typedPriority t
  | none => 1

/-- One candidate of the fallback scan (`pdf_parser.js` 155–186): the body
between the header match and `endobj`, its first `<<`, the balanced
dictionary there, and the relocated absolute span. -/
def candOf (s : List Nat) (bodyStart endIdx : Nat) : Option ReadResult :=
  let body := (s.drop bodyStart).take (endIdx - bodyStart)
  match indexOfFrom body (str "<<") (body.length + 1) 0 with
  | none => none
  | some relIdx =>
    match extractDictAt body relIdx with
    | none => none
    | some sp =>
      let dictStr := (body.drop sp.1).take (sp.2 - sp.1)
      match indexOfFrom s dictStr (s.length + 1) bodyStart with
      | none => some ⟨dictStr, -1, -1⟩
      | some j => some ⟨dictStr, (j : Int), (j : Int) + dictStr.length⟩

/-- The `while` loop of `legacyRead` with the running best candidate and its
priority (`pdf_parser.js` 152–190): typed candidates replace the best when
`priority >= bestPriority`, untyped ones when `bestPriority <= 1`. -/
def legacyLoop (s : List Nat) (o : Nat) :
    Nat → Nat → Option ReadResult → Int → Option ReadResult
  | 0, _, best, _ => best
  | f + 1, pos, best, bp =>
    match findObjHdr s o (s.length + 1) pos with
    | none => best
    | some bodyStart =>
      match indexOfFrom s (str "endobj") (s.length + 1) bodyStart with
      | none => best
      | some endIdx =>
        match candOf s bodyStart endIdx with
        | none => legacyLoop s o f (endIdx + 6) best bp
        | some c =>
          match findType c.dictStr (c.dictStr.length + 1) 0 with
          | some t =>
            if bp ≤ typedPriority t then
              legacyLoop s o f (endIdx + 6) (some c) (typedPriority t)
            else legacyLoop s o f (endIdx + 6) best bp
          | none =>
            if bp ≤ 1 then legacyLoop s o f (endIdx + 6) (some c) 1
            else legacyLoop s o f (endIdx + 6) best bp

/-- `legacyRead` (`pdf_parser.js` 149–192). -/
def legacyRead (s : List Nat) (o : Nat) : Option ReadResult :=
  legacyLoop s o (s.length + 1) 0 none (-1)

/-- The candidates examined by `legacyRead`, in scan order, paired with their
priorities. -/
def legacyCandsF (s : List Nat) (o : Nat) :
    Nat → Nat → List (ReadResult × Int)
  | 0, _ => []
  | f + 1, pos =>
    match findObjHdr s o (s.length + 1) pos with
    | none => []
    | some bodyStart =>
      match indexOfFrom s (str "endobj") (s.length + 1) bodyStart with
      | none => []
      | some endIdx =>
        match candOf s bodyStart endIdx with
        | none => legacyCandsF s o f (endIdx + 6)
        | some c => (c, priOf c) :: legacyCandsF s o f (endIdx + 6)

/-- All candidates of a `legacyRead` run. -/
def legacyCands (s : List Nat) (o : Nat) : List (ReadResult × Int) :=
  legacyCandsF s o (s.length + 1) 0

/-- The straight-line xref path of `readObject` (`pdf_parser.js` 198–209);
`none` at each point where the source falls back to `legacyRead`. -/
def directRead (s : List Nat) (o off : Nat) : Option ReadResult :=
  match stickyObjHeader s off with
  | none => none
  | some hd =>
    if hd.1 != o then none
    else
      match indexOfFrom s (str "<<") (s.length + 1) hd.2 with
      | none => none
      | some dictIdx =>
        match extractDictAt s dictIdx with
        | none => none
        | some sp =>
          some ⟨(s.drop sp.1).take (sp.2 - sp.1), (dictIdx : Int),
            (sp.2 : Int)⟩

/-- `readObject` (`pdf_parser.js` 144–210). -/
def readObject (s : List Nat) (m : List (Nat × Nat)) (o : Nat) :
    Option ReadResult :=
  match m.lookup o with
  | none => legacyRead s o
  | some off =>
    match directRead s o off with
    | none => legacyRead s o
    | some r => some r

/-- The accumulator update performed for one candidate: the typed test
`priority >= bestPriority` and the untyped test `bestPriority <= 1` are both
instances of `best ≤ priority`. -/
def pickStep (acc : Option ReadResult × Int) (cp : ReadResult × Int) :
    Option ReadResult × Int :=
  if acc.2 ≤ cp.2 then (some cp.1, cp.2) else acc

theorem typedPriority_nonneg (t : List Nat) : 0 ≤ typedPriority t := by
  unfold typedPriority
  split_ifs <;> norm_num

theorem priOf_nonneg (c : ReadResult) : 0 ≤ priOf c := by
  unfold priOf
  cases hft : findType c.dictStr (c.dictStr.length + 1) 0 with
  | none => norm_num
  | some t => exact typedPriority_nonneg t

theorem pickStep_isSome (acc : Option ReadResult × Int) (cp : ReadResult × Int)
    (h : acc.1.isSome = true) : (pickStep acc cp).1.isSome = true := by
  unfold pickStep
  split
  · rfl
  · exact h

theorem foldl_pickStep_isSome (l : List (ReadResult × Int))
    (acc : Option ReadResult × Int) (h : acc.1.isSome = true) :
    ((l.foldl pickStep acc).1).isSome = true := by
  induction l generalizing acc with
  | nil => simpa using h
  | cons cp t ih =>
    rw [List.foldl_cons]
    exact ih _ (pickStep_isSome acc cp h)

theorem foldl_pickStep_spec (l : List (ReadResult × Int))
    (acc : Option ReadResult × Int) :
    (l.foldl pickStep acc = acc ∧ ∀ cp ∈ l, cp.2 < acc.2) ∨
    (∃ cp ∈ l, (l.foldl pickStep acc).1 = some cp.1 ∧
      (l.foldl pickStep acc).2 = cp.2 ∧ acc.2 ≤ cp.2 ∧
      ∀ dq ∈ l, dq.2 ≤ cp.2) := by
  induction l generalizing acc with
  | nil => exact Or.inl ⟨rfl, by simp⟩
  | cons hd t ih =>
    simp only [List.foldl_cons]
    by_cases hcond : acc.2 ≤ hd.2
    · have hstep : pickStep acc hd = (some hd.1, hd.2) := by
        unfold pickStep
        rw [if_pos hcond]
      rw [hstep]
      rcases ih (some hd.1, hd.2) with ⟨heq, hall⟩ | ⟨cp, hmem, h1, h2, h3, hall⟩
      · refine Or.inr ⟨hd, List.mem_cons_self _ _, ?_, ?_, hcond, ?_⟩
        · rw [heq]
        · rw [heq]
        · intro dq hdq
          rcases List.mem_cons.mp hdq with h | h
          · rw [h]
          · exact le_of_lt (hall dq h)
      · refine Or.inr ⟨cp, List.mem_cons_of_mem _ hmem, h1, h2,
          le_trans hcond h3, ?_⟩
        intro dq hdq
        rcases List.mem_cons.mp hdq with h | h
        · rw [h]; exact h3
        · exact hall dq h
    · have hstep : pickStep acc hd = acc := by
        unfold pickStep
        rw [if_neg hcond]
      rw [hstep]
      rcases ih acc with ⟨heq, hall⟩ | ⟨cp, hmem, h1, h2, h3, hall⟩
      · refine Or.inl ⟨heq, ?_⟩
        intro cp hcp
        rcases List.mem_cons.mp hcp with h | h
        · rw [h]; omega
        · exact hall cp h
      · refine Or.inr ⟨cp, List.mem_cons_of_mem _ hmem, h1, h2, h3, ?_⟩
        intro dq hdq
        rcases List.mem_cons.mp hdq with h | h
        · rw [h]; omega
        · exact hall dq h

theorem legacyCandsF_nonneg (s : List Nat) (o : Nat) :
    ∀ f pos cp, cp ∈ legacyCandsF s o f pos → 0 ≤ cp.2 := by
  intro f
  induction f with
  | zero =>
    intro pos cp h
    simp [legacyCandsF] at h
  | succ f ih =>
    intro pos cp h
    unfold legacyCandsF at h
    split at h
    · simp at h
    · split at h
      · simp at h
      · split at h
        · exact ih _ cp h
        · rcases List.mem_cons.mp h with heq | hmem
          · rw [heq]
            exact priOf_nonneg _
          · exact ih _ cp hmem

theorem legacyLoop_eq_fold (s : List Nat) (o : Nat) :
    ∀ f pos best bp, legacyLoop s o f pos best bp =
      ((legacyCandsF s o f pos).foldl pickStep (best, bp)).1 := by
  intro f
  induction f with
  | zero => intro pos best bp; rfl
  | succ f ih =>
    intro pos best bp
    cases hfo : findObjHdr s o (s.length + 1) pos with
    | none => simp only [legacyLoop, legacyCandsF, hfo, List.foldl_nil]
    | some bodyStart =>
      cases hei : indexOfFrom s (str "endobj") (s.length + 1) bodyStart with
      | none => simp only [legacyLoop, legacyCandsF, hfo, hei, List.foldl_nil]
      | some endIdx =>
        cases hc : candOf s bodyStart endIdx with
        | none =>
          simp only [legacyLoop, legacyCandsF, hfo, hei, hc]
          exact ih (endIdx + 6) best bp
        | some c =>
          cases hft : findType c.dictStr (c.dictStr.length + 1) 0 with
          | none =>
            have hp : priOf c = 1 := by
              unfold priOf
              rw [hft]
            simp only [legacyLoop, legacyCandsF, hfo, hei, hc, hft,
              List.foldl_cons, hp]
            by_cases hcond : bp ≤ (1 : Int)
            · rw [if_pos hcond, ih (endIdx + 6) (some c) 1,
                show pickStep (best, bp) (c, 1) = (some c, 1) from by
                  simp only [pickStep]
                  rw [if_pos hcond]]
            · rw [if_neg hcond, ih (endIdx + 6) best bp,
                show pickStep (best, bp) (c, 1) = (best, bp) from by
                  simp only [pickStep]
                  rw [if_neg hcond]]
          | some t =>
            have hp : priOf c = typedPriority t := by
              unfold priOf
              rw [hft]
            simp only [legacyLoop, legacyCandsF, hfo, hei, hc, hft,
              List.foldl_cons, hp]
            by_cases hcond : bp ≤ typedPriority t
            · rw [if_pos hcond, ih (endIdx + 6) (some c) (typedPriority t),
                show pickStep (best, bp) (c, typedPriority t) =
                    (some c, typedPriority t) from by
                  simp only [pickStep]
                  rw [if_pos hcond]]
            · rw [if_neg hcond, ih (endIdx + 6) best bp,
                show pickStep (best, bp) (c, typedPriority t) =
                    (best, bp) from by
                  simp only [pickStep]
                  rw [if_neg hcond]]

theorem legacyRead_eq_fold (s : List Nat) (o : Nat) :
    legacyRead s o = ((legacyCands s o).foldl pickStep (none, -1)).1 := by
  unfold legacyRead legacyCands
  exact legacyLoop_eq_fold s o (s.length + 1) 0 none (-1)

theorem readObject_lookup_some (s : List Nat) (m : List (Nat × Nat))
    (o off : Nat) (h : m.lookup o = some off) :
    readObject s m o =
      match directRead s o off with
      | none => legacyRead s o
      | some r => some r := by
  unfold readObject
  rw [h]

/-- C10 (amended): `readObject` is total and falls back to the whole-buffer
scan `legacyRead` exactly when the xref lookup is missing or the direct read
at the recorded offset fails — a failing sticky `(\d+)\s+(\d+)\s+obj\b`
header whose first captured number differs from the requested object number
(the generation digits are not compared against `0`), a missing `<<`, or an
unbalanced dictionary.  The fallback returns `null` exactly when the scan
over `objNum\s+0\s+obj\b` matches yields no candidate, and otherwise returns
a candidate of maximal priority (Page 5, Pages/Catalog 4,
AcroForm/Annot/Sig/DocTimeStamp 3, other typed 2, untyped 1,
FontDescriptor 0). -/
theorem readObject_fallback_priority (s : List Nat) (m : List (Nat × Nat))
    (o : Nat) :
    (m.lookup o = none → readObject s m o = legacyRead s o) ∧
    (∀ off, m.lookup o = some off → directRead s o off = none →
      readObject s m o = legacyRead s o) ∧
    (∀ off r, m.lookup o = some off → directRead s o off = some r →
      readObject s m o = some r) ∧
    (legacyRead s o = none ↔ legacyCands s o = []) ∧
    (∀ r, legacyRead s o = some r →
      ∃ p, (r, p) ∈ legacyCands s o ∧ ∀ cq ∈ legacyCands s o, cq.2 ≤ p) := by
  refine ⟨?_, ?_, ?_, ?_, ?_⟩
  · intro h
    unfold readObject
    rw [h]
  · intro off h1 h2
    rw [readObject_lookup_some s m o off h1, h2]
  · intro off r h1 h2
    rw [readObject_lookup_some s m o off h1, h2]
  · constructor
    · intro h
      cases hl : legacyCands s o with
      | nil => rfl
      | cons cp t =>
        have hl' : legacyCandsF s o (s.length + 1) 0 = cp :: t := hl
        have hmem : cp ∈ legacyCandsF s o (s.length + 1) 0 := by
          rw [hl']
          exact List.mem_cons_self _ _
        have h0 := legacyCandsF_nonneg s o (s.length + 1) 0 cp hmem
        have hsome := foldl_pickStep_isSome t (some cp.1, cp.2) (by simp)
        rw [legacyRead_eq_fold, hl, List.foldl_cons,
          show pickStep ((none : Option ReadResult), (-1 : Int)) cp =
              (some cp.1, cp.2) from by
            unfold pickStep
            rw [if_pos (by omega)]] at h
        rw [h] at hsome
        simp at hsome
    · intro h
      rw [legacyRead_eq_fold, h, List.foldl_nil]
  · intro r h
    rw [legacyRead_eq_fold] at h
    rcases foldl_pickStep_spec (legacyCands s o) (none, -1) with
      ⟨heq, _⟩ | ⟨cp, hmem, h1, h2, _, hall⟩
    · rw [heq] at h
      simp at h
    · rw [h1] at h
      have hcp : cp.1 = r := Option.some.inj h
      refine ⟨cp.2, ?_, hall⟩
      rw [← hcp]
      exact hmem

/-- A buffer whose xref map sends object 5 to offset 0, where the bytes read
`5 7 obj << /A /B >>` — a header whose generation is 7, not 0 — while a
well-formed `5 0 obj` object sits further on. -/
def c10s : List Nat :=
  str "5 7 obj << /A /B >> endobj 5 0 obj << /Type /Page >> endobj"

/-- The xref map of the counterexample buffer. -/
def c10m : List (Nat × Nat) := [(5, 0)]

/-- C10 counterexample: the bytes at the mapped offset do not start with the
requested `5 0 obj` header, yet `readObject` does not fall back to the
whole-buffer scan — it returns the generation-7 dictionary, while the
fallback scan would return the `/Type /Page` dictionary. -/
theorem readObject_claim_counterexample :
    c10m.lookup 5 = some 0 ∧
    substrAt c10s 0 (str "5 0 obj") = false ∧
    readObject c10s c10m 5 ≠ legacyRead c10s 5 := by
  decide

/-! ## Last-trailer parsing (`pdf_parser.js` 22–44)

`_parseLastTrailer` records the capture of the last `startxref\s+(\d+)\s+%%EOF`
match, the last `trailer\s*<<[\s\S]*?>>` match (a non-overlapping global
scan), and reads `/Root` and `/Size` from that last trailer slice.  The
appended trailer of `_appendXrefTrailer` re-parses to the same `/Root` and to
a `/Prev` equal to the startxref the writer recorded from its input. -/

theorem decDigitsF_foldl (f : Nat) : ∀ n a, n ≤ f →
    (decDigitsF f n).foldl (fun acc d => acc * 10 + (d - 48)) a =
      a * 10 ^ (decDigitsF f n).length + n := by
  induction f with
  | zero =>
    intro n a h
    have hn : n = 0 := by omega
    subst hn
    simp [decDigitsF]
  | succ f ih =>
    intro n a h
    cases n with
    | zero => simp [decDigitsF]
    | succ m =>
      rw [show decDigitsF (f + 1) (m + 1) =
          decDigitsF f ((m + 1) / 10) ++ [48 + (m + 1) % 10] from rfl]
      rw [List.foldl_append]
      rw [ih ((m + 1) / 10) a
        (by have := Nat.div_lt_self (Nat.succ_pos m) (by omega : 1 < 10)
            omega)]
      simp only [List.foldl_cons, List.foldl_nil, List.length_append,
        List.length_cons, List.length_nil]
      have hmod := Nat.div_add_mod (m + 1) 10
      rw [pow_succ, ← mul_assoc]
      omega

theorem digitsVal_decStr (n : Nat) : digitsVal (decStr n) = n := by
  unfold digitsVal decStr
  by_cases h : n = 0
  · subst h
    rfl
  · rw [if_neg (by simpa using h)]
    rw [decDigitsF_foldl n n 0 (le_refl n)]
    simp

theorem decStr_head (n : Nat) :
    ∃ d tl, decStr n = d :: tl ∧ isDigitB d = true := by
  cases hd : decStr n with
  | nil => exact absurd hd (decStr_ne_nil n)
  | cons d tl =>
    have hall := decStr_all_digits n
    rw [hd, List.all_cons, Bool.and_eq_true] at hall
    exact ⟨d, tl, rfl, hall.1⟩

theorem spanWs_cons_ws (x : Nat) (t : List Nat) (h : isWsB x = true) :
    spanWs (x :: t) = (x :: (spanWs t).1, (spanWs t).2) := by
  simp [spanWs, h]

theorem spanDigits_cons_not_digit (x : Nat) (t : List Nat)
    (h : isDigitB x = false) : spanDigits (x :: t) = ([], x :: t) := by
  simp [spanDigits, h]

theorem spanDigits_append_nondigit (l r : List Nat) (c : Nat)
    (hl : l.all isDigitB = true) (hc : isDigitB c = false) :
    spanDigits (l ++ c :: r) = (l, c :: r) := by
  induction l with
  | nil => simp [spanDigits, hc]
  | cons x xs ih =>
    rw [List.all_cons, Bool.and_eq_true] at hl
    simp [spanDigits, hl.1, ih hl.2]

theorem mem_decStr_digit (n x : Nat) (h : x ∈ decStr n) :
    isDigitB x = true :=
  List.all_eq_true.mp (decStr_all_digits n) x h

theorem ne_of_all_ne (l : List Nat) (c : Nat)
    (h : l.all (fun x => x != c) = true) : ∀ x ∈ l, x ≠ c := by
  intro x hx
  have := List.all_eq_true.mp h x hx
  simpa using this

theorem substrAt_of_drop (s pat rest : List Nat) (i : Nat)
    (h : s.drop i = pat ++ rest) : substrAt s i pat = true := by
  unfold substrAt
  rw [h]
  exact List.isPrefixOf_iff_prefix.mpr (List.prefix_append _ _)

theorem substrAt_head (s : List Nat) (i c : Nat) (cs : List Nat)
    (h : substrAt s i (c :: cs) = true) : s[i]? = some c := by
  unfold substrAt at h
  obtain ⟨t, ht⟩ := List.isPrefixOf_iff_prefix.mp h
  have h0 : (s.drop i)[0]? = some c := by
    rw [← ht]
    simp
  rw [List.getElem?_drop] at h0
  simpa using h0

theorem substrAt_false_of_ge (s : List Nat) (c : Nat) (cs : List Nat)
    (i : Nat) (h : s.length ≤ i) : substrAt s i (c :: cs) = false := by
  unfold substrAt
  rw [List.drop_eq_nil_of_le h]
  rfl

theorem substrAt_length_le (s pat : List Nat) (i : Nat) (hp : pat ≠ [])
    (h : substrAt s i pat = true) : i + pat.length ≤ s.length := by
  unfold substrAt at h
  have hlen := (List.isPrefixOf_iff_prefix.mp h).length_le
  rw [List.length_drop] at hlen
  have hpos : 1 ≤ pat.length := by
    cases pat with
    | nil => exact absurd rfl hp
    | cons x xs => simp
  omega

theorem indexOfFrom_spec (s pat : List Nat) :
    ∀ fuel pos j, indexOfFrom s pat fuel pos = some j →
      pos ≤ j ∧ substrAt s j pat = true ∧
        ∀ k, pos ≤ k → k < j → substrAt s k pat = false := by
  intro fuel
  induction fuel with
  | zero =>
    intro pos j h
    exact absurd h (by simp [indexOfFrom])
  | succ f ih =>
    intro pos j h
    unfold indexOfFrom at h
    by_cases h1 : s.length < pos + pat.length
    · rw [if_pos h1] at h
      cases h
    · rw [if_neg h1] at h
      by_cases h2 : substrAt s pos pat = true
      · rw [if_pos h2] at h
        cases h
        exact ⟨le_refl _, h2, fun k hk1 hk2 => absurd hk1 (by omega)⟩
      · rw [if_neg h2] at h
        obtain ⟨ha, hb, hc⟩ := ih (pos + 1) j h
        have h2' : substrAt s pos pat = false := by simpa using h2
        refine ⟨by omega, hb, ?_⟩
        intro k hk1 hk2
        rcases Nat.eq_or_lt_of_le hk1 with heq | hlt
        · rw [← heq]
          exact h2'
        · exact hc k hlt hk2

theorem indexOfFrom_eq_some_of (s pat : List Nat) (j : Nat) (hp : pat ≠ []) :
    ∀ fuel pos, pos ≤ j → j < pos + fuel → substrAt s j pat = true →
      (∀ k, pos ≤ k → k < j → substrAt s k pat = false) →
      indexOfFrom s pat fuel pos = some j := by
  intro fuel
  induction fuel with
  | zero =>
    intro pos h1 h2 h3 h4
    omega
  | succ f ih =>
    intro pos h1 h2 h3 h4
    unfold indexOfFrom
    rw [if_neg (by have := substrAt_length_le s pat j hp h3; omega)]
    rcases Nat.eq_or_lt_of_le h1 with heq | hlt
    · subst heq
      rw [if_pos h3]
    · rw [if_neg (by simp [h4 pos (le_refl _) hlt])]
      exact ih (pos + 1) (by omega) (by omega) h3
        (fun k hk1 hk2 => h4 k (by omega) hk2)

/-- One `exec` step of a global regex: the first position at or after `pos`
where the matcher succeeds, paired with the match end. -/
def findMatch (s : List Nat) (mf : List Nat → Nat → Option Nat) :
    Nat → Nat → Option (Nat × Nat)
  | 0, _ => none
  | f + 1, i =>
    if s.length < i then none
    else
      match mf s i with
      | some e => some (i, e)
      | none => findMatch s mf f (i + 1)

/-- The repeated-`exec` loop keeping the last match, as the `while` loop of
`_parseLastTrailer` and `String.prototype.match` with `/g` do. -/
def lastMatchF (s : List Nat) (mf : List Nat → Nat → Option Nat) :
    Nat → Nat → Option (Nat × Nat) → Option (Nat × Nat)
  | 0, _, acc => acc
  | f + 1, pos, acc =>
    match findMatch s mf (s.length + 1) pos with
    | none => acc
    | some pr => lastMatchF s mf f pr.2 (some pr)

theorem findMatch_spec (s : List Nat) (mf : List Nat → Nat → Option Nat) :
    ∀ fuel pos i e, findMatch s mf fuel pos = some (i, e) →
      pos ≤ i ∧ mf s i = some e ∧ ∀ j, pos ≤ j → j < i → mf s j = none := by
  intro fuel
  induction fuel with
  | zero =>
    intro pos i e h
    exact absurd h (by simp [findMatch])
  | succ f ih =>
    intro pos i e h
    unfold findMatch at h
    by_cases hg : s.length < pos
    · rw [if_pos hg] at h
      cases h
    · rw [if_neg hg] at h
      cases hm : mf s pos with
      | some e' =>
        rw [hm] at h
        cases h
        exact ⟨le_refl _, hm, fun j hj1 hj2 => absurd hj1 (by omega)⟩
      | none =>
        rw [hm] at h
        obtain ⟨ha, hb, hc⟩ := ih (pos + 1) i e h
        refine ⟨by omega, hb, ?_⟩
        intro j hj1 hj2
        rcases Nat.eq_or_lt_of_le hj1 with heq | hlt
        · rw [← heq]
          exact hm
        · exact hc j hlt hj2

theorem findMatch_none_of (s : List Nat) (mf : List Nat → Nat → Option Nat) :
    ∀ fuel pos, (∀ j, pos ≤ j → mf s j = none) →
      findMatch s mf fuel pos = none := by
  intro fuel
  induction fuel with
  | zero => intro pos h; rfl
  | succ f ih =>
    intro pos h
    unfold findMatch
    by_cases hg : s.length < pos
    · rw [if_pos hg]
    · rw [if_neg hg, h pos (le_refl _)]
      exact ih (pos + 1) (fun j hj => h j (by omega))

theorem findMatch_none_spec (s : List Nat) (mf : List Nat → Nat → Option Nat) :
    ∀ fuel pos, findMatch s mf fuel pos = none →
      ∀ j, pos ≤ j → j < pos + fuel → j ≤ s.length → mf s j = none := by
  intro fuel
  induction fuel with
  | zero =>
    intro pos h j hj1 hj2
    omega
  | succ f ih =>
    intro pos h j hj1 hj2 hj3
    unfold findMatch at h
    by_cases hg : s.length < pos
    · omega
    · rw [if_neg hg] at h
      cases hm : mf s pos with
      | some e =>
        rw [hm] at h
        cases h
      | none =>
        rw [hm] at h
        rcases Nat.eq_or_lt_of_le hj1 with heq | hlt
        · rw [← heq]
          exact hm
        · exact ih (pos + 1) h j hlt (by omega) hj3

theorem lastMatchF_eq (s : List Nat) (mf : List Nat → Nat → Option Nat)
    (U eU : Nat) (hU : mf s U = some eU) (hUle : U ≤ s.length)
    (hbefore : ∀ i e, mf s i = some e → i < U → e ≤ U)
    (hafter : ∀ i, U < i → mf s i = none)
    (hprog : ∀ i e, mf s i = some e → i < e) :
    ∀ fuel pos acc, pos ≤ U → U < pos + fuel →
      lastMatchF s mf fuel pos acc = some (U, eU) := by
  intro fuel
  induction fuel with
  | zero =>
    intro pos acc h1 h2
    omega
  | succ f ih =>
    intro pos acc h1 h2
    unfold lastMatchF
    cases hfm : findMatch s mf (s.length + 1) pos with
    | none =>
      exfalso
      have := findMatch_none_spec s mf (s.length + 1) pos hfm U h1
        (by omega) hUle
      rw [hU] at this
      cases this
    | some pr =>
      obtain ⟨hp1, hp2, _⟩ :=
        findMatch_spec s mf (s.length + 1) pos pr.1 pr.2 (by rw [hfm])
      have hle : pr.1 ≤ U := by
        by_contra hgt
        rw [hafter pr.1 (by omega)] at hp2
        cases hp2
      rcases Nat.eq_or_lt_of_le hle with heq | hlt
      · have heU : pr.2 = eU := by
          have h' := hp2
          rw [heq, hU] at h'
          exact (Option.some.inj h').symm
        have hUe : U < eU := by
          have := hprog pr.1 pr.2 hp2
          omega
        have hpr : pr = (U, eU) := by
          rw [← heq, ← heU]
        rw [hpr]
        cases f with
        | zero => rfl
        | succ f' =>
          unfold lastMatchF
          rw [findMatch_none_of s mf (s.length + 1) eU
            (fun j hj => hafter j (by omega))]
      · have he : pr.2 ≤ U := hbefore pr.1 pr.2 hp2 hlt
        have hprg : pr.1 < pr.2 := hprog pr.1 pr.2 hp2
        exact ih pr.2 (some pr) he (by omega)

/-- Regex `startxref\s+(\d+)\s+%%EOF` at one position (`pdf_parser.js` 23):
the captured value and the match end. -/
def matchSxAt (s : List Nat) (i : Nat) : Option (Nat × Nat) :=
  if substrAt s i (str "startxref") then
    let r1 := spanWs (s.drop (i + 9))
    if r1.1.isEmpty then none else
    let r2 := spanDigits r1.2
    if r2.1.isEmpty then none else
    let r3 := spanWs r2.2
    if r3.1.isEmpty then none else
    if (str "%%EOF").isPrefixOf r3.2 then
      some (digitsVal r2.1,
        i + 9 + r1.1.length + r2.1.length + r3.1.length + 5)
    else none
  else none

/-- Match end of the `startxref` regex. -/
def matchSxEnd (s : List Nat) (i : Nat) : Option Nat :=
  (matchSxAt s i).map (fun pr => pr.2)

/-- Regex `trailer\s*<<[\s\S]*?>>` at one position (`pdf_parser.js` 30): the
match end — the lazy interior stops at the first `>>` at or after the `<<`. -/
def matchTrailerEnd (s : List Nat) (i : Nat) : Option Nat :=
  if substrAt s i (str "trailer") then
    if substrAt s (skipWsPos s (i + 7)) (str "<<") then
      match indexOfFrom s (str ">>") (s.length + 1)
          (skipWsPos s (i + 7) + 2) with
      | some j => some (j + 2)
      | none => none
    else none
  else none

/-- Regex `\/Root\s+(\d+)\s+0\s+R` at one position of the trailer slice
(`pdf_parser.js` 34). -/
def matchRootAt (t : List Nat) (i : Nat) : Option Nat :=
  if substrAt t i (str "/Root") then
    let r1 := spanWs (t.drop (i + 5))
    if r1.1.isEmpty then none else
    let r2 := spanDigits r1.2
    if r2.1.isEmpty then none else
    let r3 := spanWs r2.2
    if r3.1.isEmpty then none else
    match r3.2 with
    | 48 :: rest =>
      let r4 := spanWs rest
      if r4.1.isEmpty then none else
      match r4.2 with
      | 82 :: _ => some (digitsVal r2.1)
      | _ => none
    | _ => none
  else none

/-- Regex `\/Size\s+(\d+)` at one position of the trailer slice
(`pdf_parser.js` 35). -/
def matchSizeAt (t : List Nat) (i : Nat) : Option Nat :=
  if substrAt t i (str "/Size") then
    let r1 := spanWs (t.drop (i + 5))
    if r1.1.isEmpty then none else
    let r2 := spanDigits r1.2
    if r2.1.isEmpty then none else some (digitsVal r2.1)
  else none

/-- First `/Root` match of the trailer slice. -/
def findRoot (t : List Nat) : Nat → Nat → Option Nat
  | 0, _ => none
  | f + 1, i =>
    if t.length ≤ i then none
    else
      match matchRootAt t i with
      | some v => some v
      | none => findRoot t f (i + 1)

/-- First `/Size` match of the trailer slice. -/
def findSize (t : List Nat) : Nat → Nat → Option Nat
  | 0, _ => none
  | f + 1, i =>
    if t.length ≤ i then none
    else
      match matchSizeAt t i with
      | some v => some v
      | none => findSize t f (i + 1)

/-- The capture of the last `startxref\s+(\d+)\s+%%EOF` match
(`pdf_parser.js` 23–28). -/
def lastSx (s : List Nat) : Option Nat :=
  match lastMatchF s matchSxEnd (s.length + 1) 0 none with
  | none => none
  | some pr => (matchSxAt s pr.1).map (fun q => q.1)

/-- The span of the last `trailer\s*<<[\s\S]*?>>` match
(`pdf_parser.js` 30–32). -/
def lastTrailerSpan (s : List Nat) : Option (Nat × Nat) :=
  lastMatchF s matchTrailerEnd (s.length + 1) 0 none

/-- `_parseLastTrailer` (`pdf_parser.js` 22–44): `(startxref, rootObjNum,
size)`, `none` where the source throws. -/
def parseLastTrailer (s : List Nat) : Option (Nat × Nat × Nat) :=
  match lastSx s with
  | none => none
  | some sx =>
    match lastTrailerSpan s with
    | none => none
    | some sp =>
      match findRoot ((s.drop sp.1).take (sp.2 - sp.1))
          (((s.drop sp.1).take (sp.2 - sp.1)).length + 1) 0,
        findSize ((s.drop sp.1).take (sp.2 - sp.1))
          (((s.drop sp.1).take (sp.2 - sp.1)).length + 1) 0 with
      | some r, some sz => some (sx, r, sz)
      | _, _ => none

/-- The `/Prev` value read from the last trailer dictionary, as the chain
walk of `_parseXrefAt` reads it (`pdf_parser.js` 93). -/
def prevOfLastTrailer (s : List Nat) : Option Nat :=
  match lastTrailerSpan s with
  | none => none
  | some sp =>
    findPrev ((s.drop sp.1).take (sp.2 - sp.1)) (sp.2 - sp.1 + 1) 0

/-- Every `trailer` match starting before `T` ends at or before `T`. -/
def trailClean (s : List Nat) (T : Nat) : Bool :=
  (List.range T).all (fun i =>
    match matchTrailerEnd s i with
    | some e => decide (e ≤ T)
    | none => true)

/-- No `trailer` match starts after `T`. -/
def trailNoneAfter (s : List Nat) (T : Nat) : Bool :=
  (List.range (s.length + 1)).all (fun i =>
    decide (i ≤ T) || (matchTrailerEnd s i).isNone)

/-- Every `startxref` match starting before `U` ends at or before `U`. -/
def sxClean (s : List Nat) (U : Nat) : Bool :=
  (List.range U).all (fun i =>
    match matchSxEnd s i with
    | some e => decide (e ≤ U)
    | none => true)

/-- No `startxref` match starts after `U`. -/
def sxNoneAfter (s : List Nat) (U : Nat) : Bool :=
  (List.range (s.length + 1)).all (fun i =>
    decide (i ≤ U) || (matchSxEnd s i).isNone)

theorem trailClean_spec (s : List Nat) (T : Nat) (h : trailClean s T = true) :
    ∀ i e, matchTrailerEnd s i = some e → i < T → e ≤ T := by
  intro i e hm hi
  have := List.all_eq_true.mp h i (List.mem_range.mpr hi)
  rw [hm] at this
  exact of_decide_eq_true this

theorem sxClean_spec (s : List Nat) (U : Nat) (h : sxClean s U = true) :
    ∀ i e, matchSxEnd s i = some e → i < U → e ≤ U := by
  intro i e hm hi
  have := List.all_eq_true.mp h i (List.mem_range.mpr hi)
  rw [hm] at this
  exact of_decide_eq_true this

theorem matchTrailerEnd_none_of_ge (s : List Nat) (i : Nat)
    (h : s.length ≤ i) : matchTrailerEnd s i = none := by
  unfold matchTrailerEnd
  rw [show str "trailer" = 116 :: str "railer" from by decide,
    substrAt_false_of_ge s 116 (str "railer") i h]
  rfl

theorem matchSxEnd_none_of_ge (s : List Nat) (i : Nat)
    (h : s.length ≤ i) : matchSxEnd s i = none := by
  unfold matchSxEnd matchSxAt
  rw [show str "startxref" = 115 :: str "tartxref" from by decide,
    substrAt_false_of_ge s 115 (str "tartxref") i h]
  rfl

theorem trailNoneAfter_spec (s : List Nat) (T : Nat)
    (h : trailNoneAfter s T = true) :
    ∀ i, T < i → matchTrailerEnd s i = none := by
  intro i hi
  by_cases hlen : i ≤ s.length
  · have := List.all_eq_true.mp h i (List.mem_range.mpr (by omega))
    simp only [Bool.or_eq_true, decide_eq_true_eq,
      Option.isNone_iff_eq_none] at this
    rcases this with h1 | h2
    · omega
    · exact h2
  · exact matchTrailerEnd_none_of_ge s i (by omega)

theorem sxNoneAfter_spec (s : List Nat) (U : Nat)
    (h : sxNoneAfter s U = true) :
    ∀ i, U < i → matchSxEnd s i = none := by
  intro i hi
  by_cases hlen : i ≤ s.length
  · have := List.all_eq_true.mp h i (List.mem_range.mpr (by omega))
    simp only [Bool.or_eq_true, decide_eq_true_eq,
      Option.isNone_iff_eq_none] at this
    rcases this with h1 | h2
    · omega
    · exact h2
  · exact matchSxEnd_none_of_ge s i (by omega)

theorem skipWsPos_ge (s : List Nat) (pos : Nat) : pos ≤ skipWsPos s pos := by
  unfold skipWsPos
  omega

theorem matchTrailerEnd_progress (s : List Nat) (i e : Nat)
    (h : matchTrailerEnd s i = some e) : i < e := by
  unfold matchTrailerEnd at h
  by_cases h1 : substrAt s i (str "trailer") = true
  · rw [if_pos h1] at h
    by_cases h2 : substrAt s (skipWsPos s (i + 7)) (str "<<") = true
    · rw [if_pos h2] at h
      cases hj : indexOfFrom s (str ">>") (s.length + 1)
          (skipWsPos s (i + 7) + 2) with
      | none =>
        rw [hj] at h
        cases h
      | some j =>
        rw [hj] at h
        have hje := Option.some.inj h
        obtain ⟨hge, _, _⟩ :=
          indexOfFrom_spec s (str ">>") (s.length + 1)
            (skipWsPos s (i + 7) + 2) j hj
        have := skipWsPos_ge s (i + 7)
        omega
    · rw [if_neg h2] at h
      cases h
  · rw [if_neg h1] at h
    cases h

theorem matchSxAt_progress (s : List Nat) (i : Nat) (v e : Nat)
    (h : matchSxAt s i = some (v, e)) : i + 14 ≤ e := by
  unfold matchSxAt at h
  by_cases h1 : substrAt s i (str "startxref") = true
  · rw [if_pos h1] at h
    by_cases h2 : (spanWs (s.drop (i + 9))).1.isEmpty = true
    · rw [if_pos h2] at h
      cases h
    · rw [if_neg h2] at h
      by_cases h3 : (spanDigits (spanWs (s.drop (i + 9))).2).1.isEmpty = true
      · rw [if_pos h3] at h
        cases h
      · rw [if_neg h3] at h
        by_cases h4 : (spanWs (spanDigits
            (spanWs (s.drop (i + 9))).2).2).1.isEmpty = true
        · rw [if_pos h4] at h
          cases h
        · rw [if_neg h4] at h
          by_cases h5 : (str "%%EOF").isPrefixOf
              (spanWs (spanDigits (spanWs (s.drop (i + 9))).2).2).2 = true
          · rw [if_pos h5] at h
            have := congrArg Prod.snd (Option.some.inj h)
            simp only at this
            omega
          · rw [if_neg h5] at h
            cases h
  · rw [if_neg h1] at h
    cases h

theorem matchSxEnd_progress (s : List Nat) (i e : Nat)
    (h : matchSxEnd s i = some e) : i < e := by
  unfold matchSxEnd at h
  cases hm : matchSxAt s i with
  | none =>
    rw [hm] at h
    cases h
  | some pr =>
    rw [hm] at h
    have := matchSxAt_progress s i pr.1 pr.2 (by rw [hm])
    have he : pr.2 = e := by
      simpa using h
    omega

/-- The trailer dictionary part of `trailerStr`, up to and including the
closing `>>`. -/
def trailerDict (size rootNum prev : Nat) : List Nat :=
  str "trailer\n<< /Size " ++ (decStr size ++ (str " /Root " ++
    (decStr rootNum ++ (str " 0 R /Prev " ++ (decStr prev ++ str " >>")))))

/-- `trailerDict` without its final `>>`. -/
def dictBody (size rootNum prev : Nat) : List Nat :=
  str "trailer\n<< /Size " ++ (decStr size ++ (str " /Root " ++
    (decStr rootNum ++ (str " 0 R /Prev " ++ (decStr prev ++ str " ")))))

/-- The bytes of `trailerStr` after the trailer dictionary. -/
def trailerPost (xrefPos : Nat) : List Nat :=
  str "\nstartxref\n" ++ (decStr xrefPos ++ str "\n%%EOF\n")

theorem trailerStr_decomp (size rootNum prev xrefPos : Nat) :
    trailerStr size rootNum prev xrefPos =
      trailerDict size rootNum prev ++ trailerPost xrefPos := by
  unfold trailerStr trailerDict trailerPost
  rw [show str " >>\nstartxref\n" =
    str " >>" ++ str "\nstartxref\n" from by decide]
  simp [List.append_assoc]

theorem trailerDict_decomp (size rootNum prev : Nat) :
    trailerDict size rootNum prev =
      dictBody size rootNum prev ++ str ">>" := by
  unfold trailerDict dictBody
  rw [show str " >>" = str " " ++ str ">>" from by decide]
  simp [List.append_assoc]

theorem dictBody_length (size rootNum prev : Nat) :
    (dictBody size rootNum prev).length =
      36 + (decStr size).length + (decStr rootNum).length +
        (decStr prev).length := by
  unfold dictBody
  simp only [List.length_append,
    show (str "trailer\n<< /Size ").length = 17 from by decide,
    show (str " /Root ").length = 7 from by decide,
    show (str " 0 R /Prev ").length = 11 from by decide,
    show (str " ").length = 1 from by decide]
  omega

theorem trailerDict_length (size rootNum prev : Nat) :
    (trailerDict size rootNum prev).length =
      38 + (decStr size).length + (decStr rootNum).length +
        (decStr prev).length := by
  rw [trailerDict_decomp]
  simp only [List.length_append, dictBody_length,
    show (str ">>").length = 2 from by decide]
  omega

theorem trailerPost_length (xrefPos : Nat) :
    (trailerPost xrefPos).length = 18 + (decStr xrefPos).length := by
  unfold trailerPost
  simp only [List.length_append,
    show (str "\nstartxref\n").length = 11 from by decide,
    show (str "\n%%EOF\n").length = 7 from by decide]
  omega

theorem trailerStr_length (size rootNum prev xrefPos : Nat) :
    (trailerStr size rootNum prev xrefPos).length =
      56 + (decStr size).length + (decStr rootNum).length +
        (decStr prev).length + (decStr xrefPos).length := by
  rw [trailerStr_decomp]
  simp only [List.length_append, trailerDict_length, trailerPost_length]
  omega

theorem dictBody_no_gt (size rootNum prev : Nat) :
    ∀ x ∈ dictBody size rootNum prev, x ≠ 62 := by
  intro x hx
  unfold dictBody at hx
  simp only [List.mem_append] at hx
  rcases hx with h | h | h | h | h | h | h
  · exact ne_of_all_ne _ 62 (by decide) x h
  · have hd := mem_decStr_digit size x h
    intro heq
    rw [heq] at hd
    exact absurd hd (by decide)
  · exact ne_of_all_ne _ 62 (by decide) x h
  · have hd := mem_decStr_digit rootNum x h
    intro heq
    rw [heq] at hd
    exact absurd hd (by decide)
  · exact ne_of_all_ne _ 62 (by decide) x h
  · have hd := mem_decStr_digit prev x h
    intro heq
    rw [heq] at hd
    exact absurd hd (by decide)
  · exact ne_of_all_ne _ 62 (by decide) x h

theorem trailerDict_getElem_lit17 (size rootNum prev k : Nat) (hk : k < 17) :
    (trailerDict size rootNum prev)[k]? =
      (str "trailer\n<< /Size ")[k]? := by
  unfold trailerDict
  exact List.getElem?_append_left
    (by rw [show (str "trailer\n<< /Size ").length = 17 from by decide]
        omega)

theorem trailerDict_getElem_sz (size rootNum prev k : Nat)
    (hk : k < (decStr size).length) :
    (trailerDict size rootNum prev)[17 + k]? = (decStr size)[k]? := by
  unfold trailerDict
  rw [show 17 + k = (str "trailer\n<< /Size ").length + k from by
      rw [show (str "trailer\n<< /Size ").length = 17 from by decide],
    getElem?_append_off, List.getElem?_append_left hk]

theorem trailerDict_getElem_lit7 (size rootNum prev k : Nat) (hk : k < 7) :
    (trailerDict size rootNum prev)[17 + (decStr size).length + k]? =
      (str " /Root ")[k]? := by
  unfold trailerDict
  rw [show 17 + (decStr size).length + k =
      (str "trailer\n<< /Size ").length + ((decStr size).length + k) from by
      rw [show (str "trailer\n<< /Size ").length = 17 from by decide]
      omega,
    getElem?_append_off, getElem?_append_off,
    List.getElem?_append_left
      (by rw [show (str " /Root ").length = 7 from by decide]; omega)]

theorem trailerDict_getElem_rn (size rootNum prev k : Nat)
    (hk : k < (decStr rootNum).length) :
    (trailerDict size rootNum prev)[24 + (decStr size).length + k]? =
      (decStr rootNum)[k]? := by
  unfold trailerDict
  rw [show 24 + (decStr size).length + k =
      (str "trailer\n<< /Size ").length + ((decStr size).length +
        ((str " /Root ").length + k)) from by
      rw [show (str "trailer\n<< /Size ").length = 17 from by decide,
        show (str " /Root ").length = 7 from by decide]
      omega,
    getElem?_append_off, getElem?_append_off, getElem?_append_off,
    List.getElem?_append_left hk]

theorem trailerDict_getElem_lit11 (size rootNum prev k : Nat) (hk : k < 11) :
    (trailerDict size rootNum prev)[24 + (decStr size).length +
      (decStr rootNum).length + k]? = (str " 0 R /Prev ")[k]? := by
  unfold trailerDict
  rw [show 24 + (decStr size).length + (decStr rootNum).length + k =
      (str "trailer\n<< /Size ").length + ((decStr size).length +
        ((str " /Root ").length + ((decStr rootNum).length + k))) from by
      rw [show (str "trailer\n<< /Size ").length = 17 from by decide,
        show (str " /Root ").length = 7 from by decide]
      omega,
    getElem?_append_off, getElem?_append_off, getElem?_append_off,
    getElem?_append_off,
    List.getElem?_append_left
      (by rw [show (str " 0 R /Prev ").length = 11 from by decide]; omega)]

theorem trailerDict_getElem_pv (size rootNum prev k : Nat)
    (hk : k < (decStr prev).length) :
    (trailerDict size rootNum prev)[35 + (decStr size).length +
      (decStr rootNum).length + k]? = (decStr prev)[k]? := by
  unfold trailerDict
  rw [show 35 + (decStr size).length + (decStr rootNum).length + k =
      (str "trailer\n<< /Size ").length + ((decStr size).length +
        ((str " /Root ").length + ((decStr rootNum).length +
          ((str " 0 R /Prev ").length + k)))) from by
      rw [show (str "trailer\n<< /Size ").length = 17 from by decide,
        show (str " /Root ").length = 7 from by decide,
        show (str " 0 R /Prev ").length = 11 from by decide]
      omega,
    getElem?_append_off, getElem?_append_off, getElem?_append_off,
    getElem?_append_off, getElem?_append_off,
    List.getElem?_append_left hk]

theorem trailerDict_getElem_close (size rootNum prev k : Nat) (hk : k < 3) :
    (trailerDict size rootNum prev)[35 + (decStr size).length +
      (decStr rootNum).length + (decStr prev).length + k]? =
      (str " >>")[k]? := by
  unfold trailerDict
  rw [show 35 + (decStr size).length + (decStr rootNum).length +
      (decStr prev).length + k =
      (str "trailer\n<< /Size ").length + ((decStr size).length +
        ((str " /Root ").length + ((decStr rootNum).length +
          ((str " 0 R /Prev ").length + ((decStr prev).length + k))))) from by
      rw [show (str "trailer\n<< /Size ").length = 17 from by decide,
        show (str " /Root ").length = 7 from by decide,
        show (str " 0 R /Prev ").length = 11 from by decide]
      omega,
    getElem?_append_off, getElem?_append_off, getElem?_append_off,
    getElem?_append_off, getElem?_append_off, getElem?_append_off]

/-- The only `/` bytes of the appended trailer dictionary sit before `Size`,
`Root` and `Prev`. -/
theorem trailerDict_slash (size rootNum prev : Nat) :
    ∀ i, (trailerDict size rootNum prev)[i]? = some 47 →
      i = 11 ∨ i = 18 + (decStr size).length ∨
        i = 29 + (decStr size).length + (decStr rootNum).length := by
  intro i hi
  by_cases h1 : i < 17
  · rw [trailerDict_getElem_lit17 size rootNum prev i h1] at hi
    interval_cases i <;> first
      | exact Or.inl rfl
      | exact absurd hi (by decide)
  · by_cases h2 : i < 17 + (decStr size).length
    · obtain ⟨k, hk, rfl⟩ : ∃ k, k < (decStr size).length ∧ i = 17 + k :=
        ⟨i - 17, by omega, by omega⟩
      rw [trailerDict_getElem_sz size rootNum prev k hk] at hi
      have hd := mem_decStr_digit size 47 (List.getElem?_mem hi)
      exact absurd hd (by decide)
    · by_cases h3 : i < 24 + (decStr size).length
      · obtain ⟨k, hk, rfl⟩ : ∃ k, k < 7 ∧
            i = 17 + (decStr size).length + k :=
          ⟨i - (17 + (decStr size).length), by omega, by omega⟩
        rw [trailerDict_getElem_lit7 size rootNum prev k hk] at hi
        interval_cases k <;> first
          | exact Or.inr (Or.inl (by omega))
          | exact absurd hi (by decide)
      · by_cases h4 : i < 24 + (decStr size).length + (decStr rootNum).length
        · obtain ⟨k, hk, rfl⟩ : ∃ k, k < (decStr rootNum).length ∧
              i = 24 + (decStr size).length + k :=
            ⟨i - (24 + (decStr size).length), by omega, by omega⟩
          rw [trailerDict_getElem_rn size rootNum prev k hk] at hi
          have hd := mem_decStr_digit rootNum 47 (List.getElem?_mem hi)
          exact absurd hd (by decide)
        · by_cases h5 : i < 35 + (decStr size).length +
              (decStr rootNum).length
          · obtain ⟨k, hk, rfl⟩ : ∃ k, k < 11 ∧
                i = 24 + (decStr size).length + (decStr rootNum).length + k :=
              ⟨i - (24 + (decStr size).length + (decStr rootNum).length),
                by omega, by omega⟩
            rw [trailerDict_getElem_lit11 size rootNum prev k hk] at hi
            interval_cases k <;> first
              | exact Or.inr (Or.inr (by omega))
              | exact absurd hi (by decide)
          · by_cases h6 : i < 35 + (decStr size).length +
                (decStr rootNum).length + (decStr prev).length
            · obtain ⟨k, hk, rfl⟩ : ∃ k, k < (decStr prev).length ∧
                  i = 35 + (decStr size).length + (decStr rootNum).length +
                    k :=
                ⟨i - (35 + (decStr size).length + (decStr rootNum).length),
                  by omega, by omega⟩
              rw [trailerDict_getElem_pv size rootNum prev k hk] at hi
              have hd := mem_decStr_digit prev 47 (List.getElem?_mem hi)
              exact absurd hd (by decide)
            · by_cases h7 : i < 38 + (decStr size).length +
                  (decStr rootNum).length + (decStr prev).length
              · obtain ⟨k, hk, rfl⟩ : ∃ k, k < 3 ∧
                    i = 35 + (decStr size).length + (decStr rootNum).length +
                      (decStr prev).length + k :=
                  ⟨i - (35 + (decStr size).length + (decStr rootNum).length +
                    (decStr prev).length), by omega, by omega⟩
                rw [trailerDict_getElem_close size rootNum prev k hk] at hi
                interval_cases k <;> exact absurd hi (by decide)
              · rw [List.getElem?_eq_none
                  (by rw [trailerDict_length]; omega)] at hi
                cases hi

theorem drop_append_off (a b : List Nat) (k : Nat) :
    (a ++ b).drop (a.length + k) = b.drop k := by
  rw [← List.drop_drop, List.drop_left]

theorem trailerStr_decomp2 (size rootNum prev xrefPos : Nat) :
    trailerStr size rootNum prev xrefPos =
      dictBody size rootNum prev ++ (str ">>" ++ trailerPost xrefPos) := by
  rw [trailerStr_decomp, trailerDict_decomp, List.append_assoc]

theorem out_drop_T (pre : List Nat) (size rootNum prev xrefPos : Nat) :
    (pre ++ trailerStr size rootNum prev xrefPos).drop pre.length =
      trailerStr size rootNum prev xrefPos :=
  List.drop_left pre _

theorem out_drop_T_add (pre : List Nat) (size rootNum prev xrefPos k : Nat) :
    (pre ++ trailerStr size rootNum prev xrefPos).drop (pre.length + k) =
      (trailerStr size rootNum prev xrefPos).drop k :=
  drop_append_off pre _ k

theorem substr_trailer_at_T (pre : List Nat) (size rootNum prev xrefPos : Nat) :
    substrAt (pre ++ trailerStr size rootNum prev xrefPos) pre.length
      (str "trailer") = true := by
  apply substrAt_of_drop _ _
    (str "\n<< /Size " ++ (decStr size ++ (str " /Root " ++ (decStr rootNum ++
      (str " 0 R /Prev " ++ (decStr prev ++ (str " >>\nstartxref\n" ++
        (decStr xrefPos ++ str "\n%%EOF\n"))))))))
  rw [out_drop_T]
  unfold trailerStr
  rw [show str "trailer\n<< /Size " =
      str "trailer" ++ str "\n<< /Size " from by decide,
    List.append_assoc]

theorem out_drop_T7 (pre : List Nat) (size rootNum prev xrefPos : Nat) :
    (pre ++ trailerStr size rootNum prev xrefPos).drop (pre.length + 7) =
      10 :: (str "<< /Size " ++ (decStr size ++ (str " /Root " ++
        (decStr rootNum ++ (str " 0 R /Prev " ++ (decStr prev ++
          (str " >>\nstartxref\n" ++ (decStr xrefPos ++
            str "\n%%EOF\n")))))))) := by
  rw [out_drop_T_add]
  unfold trailerStr
  rw [List.drop_append_of_le_length
      (by rw [show (str "trailer\n<< /Size ").length = 17 from by decide]
          omega),
    show (str "trailer\n<< /Size ").drop 7 = 10 :: str "<< /Size " from by
      decide,
    List.cons_append]

theorem skipWs_out_T7 (pre : List Nat) (size rootNum prev xrefPos : Nat) :
    skipWsPos (pre ++ trailerStr size rootNum prev xrefPos)
      (pre.length + 7) = pre.length + 8 := by
  unfold skipWsPos
  rw [out_drop_T7,
    show str "<< /Size " = 60 :: str "< /Size " from by decide,
    List.cons_append,
    spanWs_cons_ws 10 _ (by decide),
    spanWs_cons_not_ws 60 _ (by decide)]
  rfl

theorem substr_dictOpen_at_T8 (pre : List Nat)
    (size rootNum prev xrefPos : Nat) :
    substrAt (pre ++ trailerStr size rootNum prev xrefPos) (pre.length + 8)
      (str "<<") = true := by
  apply substrAt_of_drop _ _
    (str " /Size " ++ (decStr size ++ (str " /Root " ++ (decStr rootNum ++
      (str " 0 R /Prev " ++ (decStr prev ++ (str " >>\nstartxref\n" ++
        (decStr xrefPos ++ str "\n%%EOF\n"))))))))
  rw [out_drop_T_add]
  unfold trailerStr
  rw [List.drop_append_of_le_length
      (by rw [show (str "trailer\n<< /Size ").length = 17 from by decide]
          omega),
    show (str "trailer\n<< /Size ").drop 8 = str "<< /Size " from by decide,
    show str "<< /Size " = str "<<" ++ str " /Size " from by decide,
    List.append_assoc]

theorem out_drop_close (pre : List Nat) (size rootNum prev xrefPos : Nat) :
    (pre ++ trailerStr size rootNum prev xrefPos).drop
      (pre.length + (36 + (decStr size).length + (decStr rootNum).length +
        (decStr prev).length)) =
      str ">>" ++ trailerPost xrefPos := by
  rw [out_drop_T_add, trailerStr_decomp2,
    List.drop_left' (by rw [dictBody_length])]

theorem index_close (pre : List Nat) (size rootNum prev xrefPos : Nat) :
    indexOfFrom (pre ++ trailerStr size rootNum prev xrefPos) (str ">>")
      ((pre ++ trailerStr size rootNum prev xrefPos).length + 1)
      (pre.length + 10) =
      some (pre.length + (36 + (decStr size).length +
        (decStr rootNum).length + (decStr prev).length)) := by
  have hlen : (pre ++ trailerStr size rootNum prev xrefPos).length =
      pre.length + (56 + (decStr size).length + (decStr rootNum).length +
        (decStr prev).length + (decStr xrefPos).length) := by
    rw [List.length_append, trailerStr_length]
  apply indexOfFrom_eq_some_of _ _ _ (by decide)
  · omega
  · omega
  · exact substrAt_of_drop _ _ (trailerPost xrefPos) _
      (out_drop_close pre size rootNum prev xrefPos)
  · intro k hk1 hk2
    cases hsb : substrAt (pre ++ trailerStr size rootNum prev xrefPos) k
        (str ">>") with
    | false => rfl
    | true =>
      exfalso
      rw [show str ">>" = 62 :: str ">" from by decide] at hsb
      have hchar := substrAt_head _ _ _ _ hsb
      obtain ⟨k', hk', rfl⟩ : ∃ k', k' < (dictBody size rootNum prev).length ∧
          k = pre.length + k' :=
        ⟨k - pre.length, by rw [dictBody_length]; omega, by omega⟩
      rw [show (pre ++ trailerStr size rootNum prev xrefPos)[pre.length +
          k']? = (dictBody size rootNum prev)[k']? from by
        rw [trailerStr_decomp2, ← List.append_assoc,
          List.getElem?_append_left (by rw [List.length_append]; omega),
          getElem?_append_off]] at hchar
      exact dictBody_no_gt size rootNum prev 62
        (List.getElem?_mem hchar) rfl

theorem matchTrailerEnd_at (pre : List Nat) (size rootNum prev xrefPos : Nat) :
    matchTrailerEnd (pre ++ trailerStr size rootNum prev xrefPos)
      pre.length =
      some (pre.length + (38 + (decStr size).length +
        (decStr rootNum).length + (decStr prev).length)) := by
  unfold matchTrailerEnd
  rw [if_pos (substr_trailer_at_T pre size rootNum prev xrefPos),
    skipWs_out_T7 pre size rootNum prev xrefPos,
    if_pos (substr_dictOpen_at_T8 pre size rootNum prev xrefPos),
    show pre.length + 8 + 2 = pre.length + 10 from by omega,
    index_close pre size rootNum prev xrefPos]
  exact congrArg some (by omega)

theorem lastTrailerSpan_at (pre : List Nat) (size rootNum prev xrefPos : Nat)
    (h1 : trailClean (pre ++ trailerStr size rootNum prev xrefPos)
      pre.length = true)
    (h2 : trailNoneAfter (pre ++ trailerStr size rootNum prev xrefPos)
      pre.length = true) :
    lastTrailerSpan (pre ++ trailerStr size rootNum prev xrefPos) =
      some (pre.length, pre.length + (38 + (decStr size).length +
        (decStr rootNum).length + (decStr prev).length)) := by
  unfold lastTrailerSpan
  apply lastMatchF_eq
  · exact matchTrailerEnd_at pre size rootNum prev xrefPos
  · rw [List.length_append]
    omega
  · exact trailClean_spec _ _ h1
  · exact trailNoneAfter_spec _ _ h2
  · exact matchTrailerEnd_progress _
  · omega
  · rw [List.length_append]
    omega

theorem tSlice (pre : List Nat) (size rootNum prev xrefPos : Nat) :
    (((pre ++ trailerStr size rootNum prev xrefPos).drop pre.length).take
      (38 + (decStr size).length + (decStr rootNum).length +
        (decStr prev).length)) =
      trailerDict size rootNum prev := by
  rw [out_drop_T, trailerStr_decomp,
    List.take_left' (trailerDict_length size rootNum prev)]

theorem decStr_not_empty (n : Nat) : (decStr n).isEmpty = false := by
  obtain ⟨d, tl, hdx, _⟩ := decStr_head n
  rw [hdx]
  rfl

theorem out_drop_U (pre : List Nat) (size rootNum prev xrefPos : Nat) :
    (pre ++ trailerStr size rootNum prev xrefPos).drop
      (pre.length + (39 + (decStr size).length + (decStr rootNum).length +
        (decStr prev).length)) =
      str "startxref\n" ++ (decStr xrefPos ++ str "\n%%EOF\n") := by
  rw [out_drop_T_add, trailerStr_decomp,
    show 39 + (decStr size).length + (decStr rootNum).length +
        (decStr prev).length =
      (trailerDict size rootNum prev).length + 1 from by
      rw [trailerDict_length]
      omega,
    drop_append_off]
  unfold trailerPost
  rw [List.drop_append_of_le_length
      (by rw [show (str "\nstartxref\n").length = 11 from by decide]
          omega),
    show (str "\nstartxref\n").drop 1 = str "startxref\n" from by decide]

theorem substr_sx_at_U (pre : List Nat) (size rootNum prev xrefPos : Nat) :
    substrAt (pre ++ trailerStr size rootNum prev xrefPos)
      (pre.length + (39 + (decStr size).length + (decStr rootNum).length +
        (decStr prev).length)) (str "startxref") = true := by
  apply substrAt_of_drop _ _
    (str "\n" ++ (decStr xrefPos ++ str "\n%%EOF\n"))
  rw [out_drop_U,
    show str "startxref\n" = str "startxref" ++ str "\n" from by decide,
    List.append_assoc]

theorem out_drop_U9 (pre : List Nat) (size rootNum prev xrefPos : Nat) :
    (pre ++ trailerStr size rootNum prev xrefPos).drop
      (pre.length + (39 + (decStr size).length + (decStr rootNum).length +
        (decStr prev).length) + 9) =
      10 :: (decStr xrefPos ++ str "\n%%EOF\n") := by
  rw [show pre.length + (39 + (decStr size).length +
      (decStr rootNum).length + (decStr prev).length) + 9 =
    pre.length + (48 + (decStr size).length + (decStr rootNum).length +
      (decStr prev).length) from by omega,
    out_drop_T_add, trailerStr_decomp,
    show 48 + (decStr size).length + (decStr rootNum).length +
        (decStr prev).length =
      (trailerDict size rootNum prev).length + 10 from by
      rw [trailerDict_length]
      omega,
    drop_append_off]
  unfold trailerPost
  rw [List.drop_append_of_le_length
      (by rw [show (str "\nstartxref\n").length = 11 from by decide]
          omega),
    show (str "\nstartxref\n").drop 10 = [10] from by decide]
  rfl

theorem spanWs_nl_decStr (n : Nat) (rest : List Nat) :
    spanWs (10 :: (decStr n ++ rest)) = ([10], decStr n ++ rest) := by
  obtain ⟨d, tl, hdx, hdig⟩ := decStr_head n
  rw [hdx, List.cons_append, spanWs_cons_ws 10 _ (by decide),
    spanWs_cons_not_ws d _ (isWsB_eq_false_of_digit d hdig)]

theorem spanDigits_decStr_nl (n : Nat) (rest : List Nat) :
    spanDigits (decStr n ++ (10 :: rest)) = (decStr n, 10 :: rest) :=
  spanDigits_append_nondigit _ _ 10 (decStr_all_digits n) (by decide)

theorem matchSxAt_at (pre : List Nat) (size rootNum prev xrefPos : Nat) :
    matchSxAt (pre ++ trailerStr size rootNum prev xrefPos)
      (pre.length + (39 + (decStr size).length + (decStr rootNum).length +
        (decStr prev).length)) =
      some (xrefPos,
        pre.length + (55 + (decStr size).length + (decStr rootNum).length +
          (decStr prev).length + (decStr xrefPos).length)) := by
  have hnl : str "\n%%EOF\n" = 10 :: str "%%EOF\n" := by decide
  have hdrop9 := out_drop_U9 pre size rootNum prev xrefPos
  rw [hnl] at hdrop9
  simp only [matchSxAt, substr_sx_at_U pre size rootNum prev xrefPos,
    hdrop9, spanWs_nl_decStr, spanDigits_decStr_nl, decStr_not_empty,
    digitsVal_decStr, List.isEmpty_cons, List.length_cons, List.length_nil,
    show spanWs (10 :: str "%%EOF\n") = ([10], str "%%EOF\n") from by decide,
    show (str "%%EOF").isPrefixOf (str "%%EOF\n") = true from by decide,
    if_true, Bool.false_eq_true, if_false, Option.some.injEq,
    Prod.mk.injEq, true_and]
  omega

theorem matchSxEnd_at (pre : List Nat) (size rootNum prev xrefPos : Nat) :
    matchSxEnd (pre ++ trailerStr size rootNum prev xrefPos)
      (pre.length + (39 + (decStr size).length + (decStr rootNum).length +
        (decStr prev).length)) =
      some (pre.length + (55 + (decStr size).length +
        (decStr rootNum).length + (decStr prev).length +
        (decStr xrefPos).length)) := by
  unfold matchSxEnd
  rw [matchSxAt_at]
  rfl

theorem lastSx_at (pre : List Nat) (size rootNum prev xrefPos : Nat)
    (h3 : sxClean (pre ++ trailerStr size rootNum prev xrefPos)
      (pre.length + (39 + (decStr size).length + (decStr rootNum).length +
        (decStr prev).length)) = true)
    (h4 : sxNoneAfter (pre ++ trailerStr size rootNum prev xrefPos)
      (pre.length + (39 + (decStr size).length + (decStr rootNum).length +
        (decStr prev).length)) = true) :
    lastSx (pre ++ trailerStr size rootNum prev xrefPos) = some xrefPos := by
  unfold lastSx
  rw [lastMatchF_eq _ matchSxEnd
    (pre.length + (39 + (decStr size).length + (decStr rootNum).length +
      (decStr prev).length))
    (pre.length + (55 + (decStr size).length + (decStr rootNum).length +
      (decStr prev).length + (decStr xrefPos).length))
    (matchSxEnd_at pre size rootNum prev xrefPos)
    (by rw [List.length_append, trailerStr_length]; omega)
    (sxClean_spec _ _ h3)
    (sxNoneAfter_spec _ _ h4)
    (fun i e => matchSxEnd_progress _ i e)
    ((pre ++ trailerStr size rootNum prev xrefPos).length + 1) 0 none
    (by omega)
    (by rw [List.length_append, trailerStr_length]; omega)]
  show (matchSxAt (pre ++ trailerStr size rootNum prev xrefPos)
    (pre.length + (39 + (decStr size).length + (decStr rootNum).length +
      (decStr prev).length))).map (fun q => q.1) = some xrefPos
  rw [matchSxAt_at]
  rfl

theorem spanWs_ws_decStr (w n : Nat) (rest : List Nat)
    (hw : isWsB w = true) :
    spanWs (w :: (decStr n ++ rest)) = ([w], decStr n ++ rest) := by
  obtain ⟨d, tl, hdx, hdig⟩ := decStr_head n
  rw [hdx, List.cons_append, spanWs_cons_ws w _ hw,
    spanWs_cons_not_ws d _ (isWsB_eq_false_of_digit d hdig)]

theorem spanDigits_decStr_cons (n c : Nat) (rest : List Nat)
    (hc : isDigitB c = false) :
    spanDigits (decStr n ++ (c :: rest)) = (decStr n, c :: rest) :=
  spanDigits_append_nondigit _ _ c (decStr_all_digits n) hc

theorem trailerDict_drop11 (size rootNum prev : Nat) :
    (trailerDict size rootNum prev).drop 11 =
      str "/Size " ++ (decStr size ++ (str " /Root " ++ (decStr rootNum ++
        (str " 0 R /Prev " ++ (decStr prev ++ str " >>"))))) := by
  unfold trailerDict
  rw [List.drop_append_of_le_length
      (by rw [show (str "trailer\n<< /Size ").length = 17 from by decide]
          omega),
    show (str "trailer\n<< /Size ").drop 11 = str "/Size " from by decide]

theorem trailerDict_drop16 (size rootNum prev : Nat) :
    (trailerDict size rootNum prev).drop 16 =
      32 :: (decStr size ++ (str " /Root " ++ (decStr rootNum ++
        (str " 0 R /Prev " ++ (decStr prev ++ str " >>"))))) := by
  unfold trailerDict
  rw [List.drop_append_of_le_length
      (by rw [show (str "trailer\n<< /Size ").length = 17 from by decide]
          omega),
    show (str "trailer\n<< /Size ").drop 16 = [32] from by decide]
  rfl

theorem trailerDict_dropRoot (size rootNum prev : Nat) :
    (trailerDict size rootNum prev).drop (18 + (decStr size).length) =
      str "/Root " ++ (decStr rootNum ++ (str " 0 R /Prev " ++
        (decStr prev ++ str " >>"))) := by
  unfold trailerDict
  rw [show 18 + (decStr size).length =
      (str "trailer\n<< /Size ").length + ((decStr size).length + 1) from by
      rw [show (str "trailer\n<< /Size ").length = 17 from by decide]
      omega,
    drop_append_off,
    show (decStr size).length + 1 = (decStr size).length + 1 from rfl,
    drop_append_off,
    List.drop_append_of_le_length
      (by rw [show (str " /Root ").length = 7 from by decide]; omega),
    show (str " /Root ").drop 1 = str "/Root " from by decide]

theorem trailerDict_dropRoot5 (size rootNum prev : Nat) :
    (trailerDict size rootNum prev).drop (18 + (decStr size).length + 5) =
      32 :: (decStr rootNum ++ (str " 0 R /Prev " ++
        (decStr prev ++ str " >>"))) := by
  unfold trailerDict
  rw [show 18 + (decStr size).length + 5 =
      (str "trailer\n<< /Size ").length + ((decStr size).length + 6) from by
      rw [show (str "trailer\n<< /Size ").length = 17 from by decide]
      omega,
    drop_append_off, drop_append_off,
    List.drop_append_of_le_length
      (by rw [show (str " /Root ").length = 7 from by decide]; omega),
    show (str " /Root ").drop 6 = [32] from by decide]
  rfl

theorem trailerDict_dropPrev (size rootNum prev : Nat) :
    (trailerDict size rootNum prev).drop
      (29 + (decStr size).length + (decStr rootNum).length) =
      str "/Prev " ++ (decStr prev ++ str " >>") := by
  unfold trailerDict
  rw [show 29 + (decStr size).length + (decStr rootNum).length =
      (str "trailer\n<< /Size ").length + ((decStr size).length +
        ((str " /Root ").length + ((decStr rootNum).length + 5))) from by
      rw [show (str "trailer\n<< /Size ").length = 17 from by decide,
        show (str " /Root ").length = 7 from by decide]
      omega,
    drop_append_off, drop_append_off, drop_append_off, drop_append_off,
    List.drop_append_of_le_length
      (by rw [show (str " 0 R /Prev ").length = 11 from by decide]; omega),
    show (str " 0 R /Prev ").drop 5 = str "/Prev " from by decide]

theorem trailerDict_dropPrev5 (size rootNum prev : Nat) :
    (trailerDict size rootNum prev).drop
      (29 + (decStr size).length + (decStr rootNum).length + 5) =
      32 :: (decStr prev ++ str " >>") := by
  unfold trailerDict
  rw [show 29 + (decStr size).length + (decStr rootNum).length + 5 =
      (str "trailer\n<< /Size ").length + ((decStr size).length +
        ((str " /Root ").length + ((decStr rootNum).length + 10))) from by
      rw [show (str "trailer\n<< /Size ").length = 17 from by decide,
        show (str " /Root ").length = 7 from by decide]
      omega,
    drop_append_off, drop_append_off, drop_append_off, drop_append_off,
    List.drop_append_of_le_length
      (by rw [show (str " 0 R /Prev ").length = 11 from by decide]; omega),
    show (str " 0 R /Prev ").drop 10 = [32] from by decide]
  rfl

theorem matchSizeAt_dict (size rootNum prev : Nat) :
    matchSizeAt (trailerDict size rootNum prev) 11 = some size := by
  have hsub : substrAt (trailerDict size rootNum prev) 11
      (str "/Size") = true := by
    apply substrAt_of_drop _ _
      (str " " ++ (decStr size ++ (str " /Root " ++ (decStr rootNum ++
        (str " 0 R /Prev " ++ (decStr prev ++ str " >>"))))))
    rw [trailerDict_drop11,
      show str "/Size " = str "/Size" ++ str " " from by decide,
      List.append_assoc]
  have hdrop : (trailerDict size rootNum prev).drop 16 =
      32 :: (decStr size ++ (str " /Root " ++ (decStr rootNum ++
        (str " 0 R /Prev " ++ (decStr prev ++ str " >>"))))) :=
    trailerDict_drop16 size rootNum prev
  have hlit : str " /Root " ++ (decStr rootNum ++ (str " 0 R /Prev " ++
      (decStr prev ++ str " >>"))) =
      32 :: (str "/Root " ++ (decStr rootNum ++ (str " 0 R /Prev " ++
        (decStr prev ++ str " >>")))) := by
    rw [show str " /Root " = 32 :: str "/Root " from by decide,
      List.cons_append]
  rw [hlit] at hdrop
  simp only [matchSizeAt, hsub, hdrop, spanWs_ws_decStr 32 _ _ (by decide),
    spanDigits_decStr_cons _ 32 _ (by decide), decStr_not_empty,
    digitsVal_decStr, List.isEmpty_cons, if_true, Bool.false_eq_true,
    if_false]

theorem matchRootAt_dict (size rootNum prev : Nat) :
    matchRootAt (trailerDict size rootNum prev)
      (18 + (decStr size).length) = some rootNum := by
  have hsub : substrAt (trailerDict size rootNum prev)
      (18 + (decStr size).length) (str "/Root") = true := by
    apply substrAt_of_drop _ _
      (str " " ++ (decStr rootNum ++ (str " 0 R /Prev " ++
        (decStr prev ++ str " >>"))))
    rw [trailerDict_dropRoot,
      show str "/Root " = str "/Root" ++ str " " from by decide,
      List.append_assoc]
  have hdrop := trailerDict_dropRoot5 size rootNum prev
  have hlit : str " 0 R /Prev " ++ (decStr prev ++ str " >>") =
      32 :: (str "0 R /Prev " ++ (decStr prev ++ str " >>"))  := by
    rw [show str " 0 R /Prev " = 32 :: str "0 R /Prev " from by decide,
      List.cons_append]
  rw [hlit] at hdrop
  have hzero : str "0 R /Prev " ++ (decStr prev ++ str " >>") =
      48 :: (str " R /Prev " ++ (decStr prev ++ str " >>")) := by
    rw [show str "0 R /Prev " = 48 :: str " R /Prev " from by decide,
      List.cons_append]
  have hspR : spanWs (str " R /Prev " ++ (decStr prev ++ str " >>")) =
      ([32], 82 :: (str " /Prev " ++ (decStr prev ++ str " >>"))) := by
    rw [show str " R /Prev " = 32 :: (82 :: str " /Prev ") from by decide,
      List.cons_append, List.cons_append,
      spanWs_cons_ws 32 _ (by decide), spanWs_cons_not_ws 82 _ (by decide)]
  have hsp0 : spanWs (32 :: (str "0 R /Prev " ++
      (decStr prev ++ str " >>"))) =
      ([32], 48 :: (str " R /Prev " ++ (decStr prev ++ str " >>"))) := by
    rw [hzero, spanWs_cons_ws 32 _ (by decide),
      spanWs_cons_not_ws 48 _ (by decide)]
  simp only [matchRootAt, hsub, hdrop, spanWs_ws_decStr 32 _ _ (by decide),
    spanDigits_decStr_cons _ 32 _ (by decide), hsp0, hspR,
    decStr_not_empty, digitsVal_decStr, List.isEmpty_cons, if_true,
    Bool.false_eq_true, if_false]

theorem matchPrevAt_dict (size rootNum prev : Nat) :
    matchPrevAt (trailerDict size rootNum prev)
      (29 + (decStr size).length + (decStr rootNum).length) =
      some prev := by
  have hsub : substrAt (trailerDict size rootNum prev)
      (29 + (decStr size).length + (decStr rootNum).length)
      (str "/Prev") = true := by
    apply substrAt_of_drop _ _ (str " " ++ (decStr prev ++ str " >>"))
    rw [trailerDict_dropPrev,
      show str "/Prev " = str "/Prev" ++ str " " from by decide,
      List.append_assoc]
  have hdrop := trailerDict_dropPrev5 size rootNum prev
  have hgt : decStr prev ++ str " >>" =
      decStr prev ++ (32 :: str ">>") := by
    rw [show str " >>" = 32 :: str ">>" from by decide]
  rw [hgt] at hdrop
  simp only [matchPrevAt, hsub, hdrop, spanWs_ws_decStr 32 _ _ (by decide),
    spanDigits_decStr_cons _ 32 _ (by decide), decStr_not_empty,
    digitsVal_decStr, List.isEmpty_cons, if_true, Bool.false_eq_true,
    if_false]

theorem matchSizeAt_ne (t : List Nat) (i : Nat) (h : t[i]? ≠ some 47) :
    matchSizeAt t i = none := by
  unfold matchSizeAt
  by_cases hs : substrAt t i (str "/Size") = true
  · exact absurd (substrAt_head t i 47 (str "Size")
      (by rw [show (47 : Nat) :: str "Size" = str "/Size" from by decide]
          exact hs)) h
  · rw [if_neg hs]

theorem matchRootAt_ne (t : List Nat) (i : Nat) (h : t[i]? ≠ some 47) :
    matchRootAt t i = none := by
  unfold matchRootAt
  by_cases hs : substrAt t i (str "/Root") = true
  · exact absurd (substrAt_head t i 47 (str "Root")
      (by rw [show (47 : Nat) :: str "Root" = str "/Root" from by decide]
          exact hs)) h
  · rw [if_neg hs]

theorem matchPrevAt_ne (t : List Nat) (i : Nat) (h : t[i]? ≠ some 47) :
    matchPrevAt t i = none := by
  unfold matchPrevAt
  by_cases hs : substrAt t i (str "/Prev") = true
  · exact absurd (substrAt_head t i 47 (str "Prev")
      (by rw [show (47 : Nat) :: str "Prev" = str "/Prev" from by decide]
          exact hs)) h
  · rw [if_neg hs]

theorem root_not_at_size (size rootNum prev : Nat) :
    substrAt (trailerDict size rootNum prev) 11 (str "/Root") = false := by
  unfold substrAt
  rw [trailerDict_drop11,
    show str "/Size " = 47 :: (83 :: str "ize ") from by decide,
    show str "/Root" = 47 :: (82 :: str "oot") from by decide,
    List.cons_append, List.cons_append]
  simp [List.isPrefixOf]

theorem prev_not_at_size (size rootNum prev : Nat) :
    substrAt (trailerDict size rootNum prev) 11 (str "/Prev") = false := by
  unfold substrAt
  rw [trailerDict_drop11,
    show str "/Size " = 47 :: (83 :: str "ize ") from by decide,
    show str "/Prev" = 47 :: (80 :: str "rev") from by decide,
    List.cons_append, List.cons_append]
  simp [List.isPrefixOf]

theorem prev_not_at_root (size rootNum prev : Nat) :
    substrAt (trailerDict size rootNum prev) (18 + (decStr size).length)
      (str "/Prev") = false := by
  unfold substrAt
  rw [trailerDict_dropRoot,
    show str "/Root " = 47 :: (82 :: str "oot ") from by decide,
    show str "/Prev" = 47 :: (80 :: str "rev") from by decide,
    List.cons_append, List.cons_append]
  simp [List.isPrefixOf]

theorem findSize_exact (t : List Nat) (U v : Nat)
    (hU : matchSizeAt t U = some v) (hUlt : U < t.length)
    (hpre : ∀ i, i < U → matchSizeAt t i = none) :
    ∀ fuel pos, pos ≤ U → U < pos + fuel → findSize t fuel pos = some v := by
  intro fuel
  induction fuel with
  | zero =>
    intro pos h1 h2
    omega
  | succ f ih =>
    intro pos h1 h2
    unfold findSize
    rw [if_neg (by omega)]
    rcases Nat.eq_or_lt_of_le h1 with heq | hlt
    · subst heq
      rw [hU]
    · rw [hpre pos hlt]
      exact ih (pos + 1) (by omega) (by omega)

theorem findRoot_exact (t : List Nat) (U v : Nat)
    (hU : matchRootAt t U = some v) (hUlt : U < t.length)
    (hpre : ∀ i, i < U → matchRootAt t i = none) :
    ∀ fuel pos, pos ≤ U → U < pos + fuel → findRoot t fuel pos = some v := by
  intro fuel
  induction fuel with
  | zero =>
    intro pos h1 h2
    omega
  | succ f ih =>
    intro pos h1 h2
    unfold findRoot
    rw [if_neg (by omega)]
    rcases Nat.eq_or_lt_of_le h1 with heq | hlt
    · subst heq
      rw [hU]
    · rw [hpre pos hlt]
      exact ih (pos + 1) (by omega) (by omega)

theorem findPrev_exact (t : List Nat) (U v : Nat)
    (hU : matchPrevAt t U = some v) (hUlt : U < t.length)
    (hpre : ∀ i, i < U → matchPrevAt t i = none) :
    ∀ fuel pos, pos ≤ U → U < pos + fuel → findPrev t fuel pos = some v := by
  intro fuel
  induction fuel with
  | zero =>
    intro pos h1 h2
    omega
  | succ f ih =>
    intro pos h1 h2
    unfold findPrev
    rw [if_neg (by omega)]
    rcases Nat.eq_or_lt_of_le h1 with heq | hlt
    · subst heq
      rw [hU]
    · rw [hpre pos hlt]
      exact ih (pos + 1) (by omega) (by omega)

theorem findSize_dict (size rootNum prev : Nat) :
    findSize (trailerDict size rootNum prev)
      ((trailerDict size rootNum prev).length + 1) 0 = some size := by
  apply findSize_exact _ 11 size (matchSizeAt_dict size rootNum prev)
    (by rw [trailerDict_length]; omega)
  · intro i hi
    apply matchSizeAt_ne
    intro hc
    rcases trailerDict_slash size rootNum prev i hc with h | h | h <;> omega
  · omega
  · rw [trailerDict_length]
    omega

theorem findRoot_dict (size rootNum prev : Nat) :
    findRoot (trailerDict size rootNum prev)
      ((trailerDict size rootNum prev).length + 1) 0 = some rootNum := by
  apply findRoot_exact _ (18 + (decStr size).length) rootNum
    (matchRootAt_dict size rootNum prev)
    (by rw [trailerDict_length]; omega)
  · intro i hi
    by_cases h11 : i = 11
    · subst h11
      unfold matchRootAt
      rw [root_not_at_size]
      rfl
    · apply matchRootAt_ne
      intro hc
      rcases trailerDict_slash size rootNum prev i hc with h | h | h <;> omega
  · omega
  · rw [trailerDict_length]
    omega

theorem findPrev_dict (size rootNum prev : Nat) :
    findPrev (trailerDict size rootNum prev)
      (38 + (decStr size).length + (decStr rootNum).length +
        (decStr prev).length + 1) 0 = some prev := by
  apply findPrev_exact _
    (29 + (decStr size).length + (decStr rootNum).length) prev
    (matchPrevAt_dict size rootNum prev)
    (by rw [trailerDict_length]; omega)
  · intro i hi
    by_cases h11 : i = 11
    · subst h11
      unfold matchPrevAt
      rw [prev_not_at_size]
      rfl
    · by_cases hrt : i = 18 + (decStr size).length
      · subst hrt
        unfold matchPrevAt
        rw [prev_not_at_root]
        rfl
      · apply matchPrevAt_ne
        intro hc
        rcases trailerDict_slash size rootNum prev i hc with h | h | h <;>
          omega
  · omega
  · omega

theorem lastTrailer_of_append (pre : List Nat)
    (size rootNum prev xrefPos : Nat)
    (h1 : trailClean (pre ++ trailerStr size rootNum prev xrefPos)
      pre.length = true)
    (h2 : trailNoneAfter (pre ++ trailerStr size rootNum prev xrefPos)
      pre.length = true)
    (h3 : sxClean (pre ++ trailerStr size rootNum prev xrefPos)
      (pre.length + (39 + (decStr size).length + (decStr rootNum).length +
        (decStr prev).length)) = true)
    (h4 : sxNoneAfter (pre ++ trailerStr size rootNum prev xrefPos)
      (pre.length + (39 + (decStr size).length + (decStr rootNum).length +
        (decStr prev).length)) = true) :
    parseLastTrailer (pre ++ trailerStr size rootNum prev xrefPos) =
      some (xrefPos, rootNum, size) ∧
    prevOfLastTrailer (pre ++ trailerStr size rootNum prev xrefPos) =
      some prev := by
  have hspan := lastTrailerSpan_at pre size rootNum prev xrefPos h1 h2
  have hsx := lastSx_at pre size rootNum prev xrefPos h3 h4
  have hslice := tSlice pre size rootNum prev xrefPos
  constructor
  · simp only [parseLastTrailer, hsx, hspan, Nat.add_sub_cancel_left,
      hslice, findRoot_dict, findSize_dict]
  · simp only [prevOfLastTrailer, hspan, Nat.add_sub_cancel_left, hslice,
      findPrev_dict]

/-- Byte length of the appended object chunks plus the base: the `xrefPos`
written by `_appendXrefTrailer` (`pdf_parser.js` 696). -/
def c6X (base : List Nat) (objs : List (Nat × List Nat)) : Nat :=
  base.length + (chunkObjs base.length objs).1.length

/-- Offset of the appended `trailer` keyword inside an `_appendXrefTrailer`
output. -/
def c6T (base : List Nat) (objs : List (Nat × List Nat)) : Nat :=
  c6X base objs + (buildXrefSorted (chunkObjs base.length objs).2).length

/-- Offset of the appended final `startxref` keyword inside an
`_appendXrefTrailer` output. -/
def c6U (base : List Nat) (objs : List (Nat × List Nat))
    (size rootNum prev : Nat) : Nat :=
  c6T base objs + (39 + (decStr size).length + (decStr rootNum).length +
    (decStr prev).length)

theorem appendXrefTrailer_decomp (base : List Nat)
    (objs : List (Nat × List Nat)) (size rootNum prev : Nat) :
    appendXrefTrailer base objs size rootNum prev =
      (base ++ (chunkObjs base.length objs).1 ++
        buildXrefSorted (chunkObjs base.length objs).2) ++
        trailerStr size rootNum prev (c6X base objs) := by
  unfold appendXrefTrailer c6X
  simp [List.append_assoc]

/-- C6: for every output of `_appendXrefTrailer` built with the `/Root`
object number and the `startxref` offset that `_parseLastTrailer` reported
for the input — exactly what both `preparePlaceholder` and
`ensureAcroFormAndEmptySigField` pass (`pdf_parser.js` 939, 958–961,
1068–1070) — parsing the output's last trailer succeeds and yields the same
`/Root` as the input, the new `/Size`, and a `startxref` pointing at the
appended xref section, while the `/Prev` entry of that last trailer equals
the input's last `startxref` offset, so the trailer chain walk of the output
continues at the input's last xref.  The four Boolean side conditions state
that no `trailer` or `startxref` match of the front part of the buffer
overlaps or follows the appended ones; they are decidable on each concrete
buffer and hold for well-formed inputs. -/
theorem trailer_roundtrip (base : List Nat) (objs : List (Nat × List Nat))
    (size sxIn rIn szIn : Nat)
    (hin : parseLastTrailer base = some (sxIn, rIn, szIn))
    (h1 : trailClean (appendXrefTrailer base objs size rIn sxIn)
      (c6T base objs) = true)
    (h2 : trailNoneAfter (appendXrefTrailer base objs size rIn sxIn)
      (c6T base objs) = true)
    (h3 : sxClean (appendXrefTrailer base objs size rIn sxIn)
      (c6U base objs size rIn sxIn) = true)
    (h4 : sxNoneAfter (appendXrefTrailer base objs size rIn sxIn)
      (c6U base objs size rIn sxIn) = true) :
    parseLastTrailer (appendXrefTrailer base objs size rIn sxIn) =
      some (c6X base objs, rIn, size) ∧
    prevOfLastTrailer (appendXrefTrailer base objs size rIn sxIn) =
      some sxIn := by
  have hpre : (base ++ (chunkObjs base.length objs).1 ++
      buildXrefSorted (chunkObjs base.length objs).2).length =
      c6T base objs := by
    unfold c6T c6X
    rw [List.length_append, List.length_append]
  unfold c6U at h3 h4
  rw [appendXrefTrailer_decomp] at h1 h2 h3 h4 ⊢
  rw [← hpre] at h1 h2 h3 h4
  exact lastTrailer_of_append _ size rIn sxIn (c6X base objs) h1 h2 h3 h4

/-- A minimal well-formed input PDF: one catalog object, one xref table, a
trailer with `/Size 2 /Root 1 0 R`, and `startxref 46`. -/
def c6Base : List Nat :=
  str "%PDF-1.4\n1 0 obj\n<< /Type /Catalog >>\nendobj\nxref\n0 2\n0000000000 65535 f \n0000000009 00000 n \ntrailer\n<< /Size 2 /Root 1 0 R >>\nstartxref\n46\n%%EOF\n"

/-- One appended object for the incremental update of the witness. -/
def c6Objs : List (Nat × List Nat) := [(2, str "<< /Length 1 >>")]

theorem trailer_roundtrip_witness :
    parseLastTrailer (appendXrefTrailer c6Base c6Objs 3 1 46) =
      some (c6X c6Base c6Objs, 1, 3) ∧
    prevOfLastTrailer (appendXrefTrailer c6Base c6Objs 3 1 46) = some 46 :=
  trailer_roundtrip c6Base c6Objs 3 46 1 2 (by decide) (by decide)
    (by decide) (by decide) (by decide)

theorem readObject_fallback_priority_witness :
    readObject c10s ([] : List (Nat × Nat)) 5 = legacyRead c10s 5 ∧
    (∃ p, ((⟨str "<< /Type /Page >>", 35, 52⟩ : ReadResult), p) ∈
        legacyCands c10s 5 ∧
      ∀ cq ∈ legacyCands c10s 5, cq.2 ≤ p) :=
  ⟨(readObject_fallback_priority c10s [] 5).1 (by decide),
   (readObject_fallback_priority c10s [] 5).2.2.2.2
     ⟨str "<< /Type /Page >>", 35, 52⟩ (by decide)⟩

end PAdES
